import Mathlib

/-!
# favmigration: batch planner, page splitter, linked exporter and fetch manager

A shallow embedding of `batch.go` and `statuses.go` (and the parts of `io.go` they call).

* `TweetID` (Go `int`) is an `Int`; identifiers are only compared and printed.
* `time.Time` is an `Int`: the instant in nanoseconds since the Unix epoch; `UnixNano`
  is this number wrapped to an `int64`.
* `time.Now()` is the next reading of a clock `Nat → Time`; every function that
  reads the clock receives the index of the next reading and returns the index
  after its last reading.
* `fmt.Sprintf` verbs `%d`, `%06d` and `%s` are the functions `fmtInt`,
  `fmtNat06` and string concatenation.
* `lo.Chunk`, `lo.Map`, `lo.IsNotEmpty` and `sort.SliceStable` are library code;
  they are embedded by what they compute.
* The network, the rate limiter and the file system answer through oracles; a Go panic
  is the result `none`.
-/

namespace FavMigration

/-! ## Formatting -/

/-- Decimal digits of `n`, most significant first; `fuel` bounds the number of digits. -/
def decimalDigits : Nat → Nat → List Char
  | 0, _ => []
  | fuel + 1, n =>
    if n < 10 then [Nat.digitChar n]
    else decimalDigits fuel (n / 10) ++ [Nat.digitChar (n % 10)]

/-- The verb `%d` on a non-negative integer. -/
def fmtNat (n : Nat) : String := ⟨decimalDigits (n + 1) n⟩

/-- The verb `%d` on a signed integer. -/
def fmtInt : Int → String
  | Int.ofNat n => fmtNat n
  | Int.negSucc n => "-" ++ fmtNat (n + 1)

/-- The verb `%06d` on a positive integer: left-padded with zeros to six digits. -/
def fmtNat06 (n : Nat) : String :=
  ⟨List.replicate (6 - (fmtNat n).length) '0'⟩ ++ fmtNat n

/-! ## Data model -/

abbrev TweetID := Int

abbrev BatchID := String

/-- An instant, in nanoseconds since the Unix epoch. -/
abbrev Time := Int

/-- The constant `time.Microsecond * 100`, in nanoseconds. -/
def ROUND_CREATED_AT : Int := 100000

def DEFAULT_MAX_ITEMS_PER_PAGE : Nat := 10

def DEFAULT_MAX_ITEMS_IN_HEADER : Nat := 20

/-- The method `Time.Truncate(d)` for `d > 0`: rounds down to a multiple of `d`. The zero
time lies a whole number of seconds before the Unix epoch, so for a `d` dividing one
second the multiples are those of the Unix time. -/
def truncate (t : Time) (d : Int) : Time := t - t % d

/-- A value wrapped to the range of a 64-bit `int`. -/
def toInt64 (x : Int) : Int := (x + 2 ^ 63) % 2 ^ 64 - 2 ^ 63

/-- The instants whose Unix time in nanoseconds fits an `int64` (the years 1678 to 2262):
the documented range of `Time.UnixNano()`. -/
abbrev UnixNanoRange (t : Time) : Prop := -2 ^ 63 ≤ t ∧ t < 2 ^ 63

/-- The method `Time.UnixNano()`: the nanoseconds since the epoch as an `int64`, computed with
wrapping arithmetic, so outside `UnixNanoRange` the result is the instant wrapped to 64 bits. -/
def unixNano (t : Time) : Int := toInt64 t

/-- The expression `uint(t.Unix())`: whole seconds since the epoch, converted to `uint`. -/
def unixUint (t : Time) : Nat := ((t / 1000000000) % 18446744073709551616).toNat

/-- The function `NewBatchID`; Go's `/` on `int64` truncates toward zero. -/
def NewBatchID (batchCreatedAt : Time) : BatchID :=
  fmtInt (Int.tdiv (unixNano batchCreatedAt) ROUND_CREATED_AT) ++ "-auto"

structure Batch where
  BatchID : BatchID
  Tweets : List TweetID
  IsHead : Bool
  CreatedAt : Time
  deriving DecidableEq, Repr

def newMergedBatch (createdAt : Time) (merged : List TweetID) : Batch :=
  { BatchID := NewBatchID createdAt, Tweets := merged, IsHead := false, CreatedAt := createdAt }

def newHeadBatch (createdAt : Time) (head : List TweetID) : Batch :=
  { BatchID := NewBatchID createdAt, Tweets := head, IsHead := true, CreatedAt := createdAt }

structure IDAndTimestamp where
  ID : String
  Timestamp : Nat
  deriving DecidableEq, Repr

structure Page where
  ID : String
  Statuses : List IDAndTimestamp
  CreatedAt : Nat
  deriving DecidableEq, Repr

structure BatchLinked where
  ID : BatchID
  Head : Bool
  Pages : List String
  Next : Option BatchID
  CreatedAt : Nat
  UpdatedAt : Nat
  UpdateNonce : String
  deriving DecidableEq, Repr

structure CurrentJson where
  Head : Option BatchID
  Last : Option BatchID
  UpdatedAt : Nat
  deriving DecidableEq, Repr

/-! ## Library functions -/

/-- The function `lo.Chunk`: `len/size` chunks, one more when a remainder is left, the
`i`-th being `collection[i*size : min((i+1)*size, len)]`. It panics on `size ≤ 0`; both
callers pass a positive constant, and for `size = 0` this gives no chunk. -/
def Chunk {α : Type} (collection : List α) (size : Nat) : List (List α) :=
  if size = 0 then []
  else
    let chunksNum := collection.length / size + (if collection.length % size ≠ 0 then 1 else 0)
    (List.range chunksNum).map fun i =>
      let last := min ((i + 1) * size) collection.length
      (collection.take last).drop (i * size)

/-- The function `SortOld2New`: a stable sort by `slice[i] < slice[j]`. -/
def SortOld2New (tweets : List TweetID) : List TweetID :=
  tweets.insertionSort (fun a b => a ≤ b)

/-- The function `SortNew2Old`: a stable sort by `slice[i] > slice[j]`. -/
def SortNew2Old (tweets : List TweetID) : List TweetID :=
  tweets.insertionSort (fun a b => a ≥ b)

/-! ## Batch planner -/

/-- The state captured by the closure of `createdAtFactory`: the variable `current`. -/
def createdAtFactory (createdAt : Time) : Time := truncate createdAt ROUND_CREATED_AT

/-- One call of the closure returned by `createdAtFactory`: `now` is the reading of
`time.Now()`; the result is both the new `current` and the value returned. -/
def nextCreatedAt (current : Time) (now : Time) : Time :=
  let now := truncate now ROUND_CREATED_AT
  if now > current then now else current + ROUND_CREATED_AT

/-- The loop over `mergedTweetsAll` in `Tweets2Batches`: `k` is the index of the next clock
reading, `current` the generator's state, `batches` the slice built so far. -/
def mergedLoop (clock : Nat → Time) :
    List (List TweetID) → Nat → Time → List Batch → List Batch × Nat × Time
  | [], k, current, batches => (batches, k, current)
  | mergedTweets :: rest, k, current, batches =>
    let createdAt := nextCreatedAt current (clock k)
    mergedLoop clock rest (k + 1) createdAt (batches ++ [newMergedBatch createdAt mergedTweets])

/-- The function `Tweets2Batches`, reading the clock from index `k`; it returns the batches
and the index of the next unread clock reading. -/
def Tweets2BatchesFrom (clock : Nat → Time) (k : Nat) (tweets : List TweetID) :
    List Batch × Nat :=
  if tweets.length = 0 then ([], k)
  else
    let splitTweets := (Chunk (SortOld2New tweets) DEFAULT_MAX_ITEMS_IN_HEADER).map SortNew2Old
    let mergedTweetsAll := splitTweets.take (splitTweets.length - 1)
    let headTweets := splitTweets.getD (splitTweets.length - 1) []
    let current := createdAtFactory (clock k)
    let (batches, k, current) := mergedLoop clock mergedTweetsAll (k + 1) current []
    (batches ++ [newHeadBatch (nextCreatedAt current (clock k)) headTweets], k + 1)

/-- The function `Tweets2Batches`. -/
def Tweets2Batches (clock : Nat → Time) (tweets : List TweetID) : List Batch :=
  (Tweets2BatchesFrom clock 0 tweets).1

/-- The values returned by successive calls of the closure of `createdAtFactory`, starting
from the state `current`, the `i`-th call reading the clock value `readings[i]`. -/
def createdAtCalls (current : Time) : List Time → List Time
  | [] => []
  | now :: rest => nextCreatedAt current now :: createdAtCalls (nextCreatedAt current now) rest

/-- The clock readings number `k`, `k+1`, ..., `k+n-1`. -/
def readings (clock : Nat → Time) (k n : Nat) : List Time :=
  (List.range n).map fun i => clock (k + i)

/-- The chunks of `Tweets2Batches`: the variable `splitTweets` after the `lo.Map`. -/
def splitTweets (tweets : List TweetID) : List (List TweetID) :=
  (Chunk (SortOld2New tweets) DEFAULT_MAX_ITEMS_IN_HEADER).map SortNew2Old

/-! ## Page splitter -/

/-- The function `lo.Map` from index `i` on: the callback receives the item and its index. -/
def loMapFrom {α β : Type} (f : α → Nat → β) : Nat → List α → List β
  | _, [] => []
  | i, x :: xs => f x i :: loMapFrom f (i + 1) xs

/-- The function `lo.Map`. -/
def loMap {α β : Type} (collection : List α) (f : α → Nat → β) : List β :=
  loMapFrom f 0 collection

/-- The method `Batch.SplitPages`. -/
def SplitPages (b : Batch) (createdAt : Time) : List Page :=
  if b.IsHead then
    loMap b.Tweets fun tweet _ =>
      { ID := "head/" ++ b.BatchID ++ "/" ++ fmtInt tweet
        Statuses := [{ ID := fmtInt tweet, Timestamp := unixUint createdAt }]
        CreatedAt := unixUint createdAt }
  else
    loMap (Chunk (SortNew2Old b.Tweets) DEFAULT_MAX_ITEMS_PER_PAGE) fun pageTweets i =>
      { ID := "merged/" ++ b.BatchID ++ "/" ++ fmtNat06 (i + 1)
        Statuses := loMap pageTweets fun tweet _ =>
          { ID := fmtInt tweet, Timestamp := unixUint createdAt }
        CreatedAt := unixUint createdAt }

/-! ## Linked exporter -/

/-- What the exporter takes from its environment: the readings of `time.Now()`, the draws
`Intn(64)` of a `math/rand` generator seeded with a given value, and which calls of
`os.RemoveAll` and `os.Create` fail. -/
structure Env where
  clock : Nat → Time
  intn : Int → Nat → Nat
  removeAllFails : Bool
  createFails : String → Bool

def URL_SAFE_BASE64_CHARSET : String :=
  "abcdefghijklmnopqrstuvwxyzABCDEFGHIJKLMNOPQRSTUVWXYZ0123456789-_"

/-- The function `generateRandomURLSafeBase64`; `now` is its reading of the clock. -/
def generateRandomURLSafeBase64 (env : Env) (now : Time) (length : Int) : Except String String :=
  if length < 0 then Except.error ("invalid length: " ++ fmtInt length)
  else if length = 0 then Except.ok ""
  else
    let seed := unixNano now
    Except.ok ⟨(List.range length.toNat).map fun i =>
      URL_SAFE_BASE64_CHARSET.data.getD
        (env.intn seed i % URL_SAFE_BASE64_CHARSET.length) 'a'⟩

/-- The function `generateNonce`; the error branch panics in the source and is not reached
for the length 32. -/
def generateNonce (env : Env) (now : Time) : String :=
  match generateRandomURLSafeBase64 env now 32 with
  | Except.ok str => str
  | Except.error _ => ""

/-- The method `Batch.LinkPages`, reading the clock from index `k`: two readings for the
record's timestamps and one for the seed of the nonce. -/
def LinkPages (env : Env) (k : Nat) (b : Batch) (next : BatchID) :
    (BatchLinked × List Page) × Nat :=
  let nextPtr : Option BatchID := if next ≠ "" then some next else none
  let pages := SplitPages b b.CreatedAt
  (({ ID := b.BatchID
      Head := b.IsHead
      Pages := loMap pages fun page _ => page.ID
      Next := nextPtr
      CreatedAt := unixUint (env.clock k)
      UpdatedAt := unixUint (env.clock (k + 1))
      UpdateNonce := generateNonce env (env.clock (k + 2)) }, pages), k + 3)

/-- The value handed to `CreateJson`. -/
inductive Json where
  | batch (v : BatchLinked)
  | page (v : Page)
  | current (v : CurrentJson)
  deriving DecidableEq, Repr

/-- One file created by `CreateJson`: its path and the value marshalled into it. -/
structure FileWrite where
  path : String
  content : Json
  deriving DecidableEq, Repr

/-- The loop over `pages` in `ExportPublic`: the files written so far, and whether every
`CreateJson` succeeded. -/
def writePages (env : Env) : List Page → List FileWrite → List FileWrite × Bool
  | [], written => (written, true)
  | page :: rest, written =>
    if env.createFails ("data/public/pages/" ++ page.ID ++ ".json") then (written, false)
    else writePages env rest
      (written ++ [⟨"data/public/pages/" ++ page.ID ++ ".json", Json.page page⟩])

/-- The loop over the batches in `ExportPublic`. It returns the files written so far and,
unless a `CreateJson` failed, the final `currentJson` and the index of the next clock
reading. -/
def exportLoop (env : Env) :
    List Batch → Nat → BatchID → CurrentJson → List FileWrite →
      List FileWrite × Option (CurrentJson × Nat)
  | [], k, _, currentJson, written => (written, some (currentJson, k))
  | batch :: rest, k, prevBatchID, currentJson, written =>
    let currentJson : CurrentJson :=
      if batch.IsHead then { currentJson with Head := some batch.BatchID }
      else { currentJson with Last := some batch.BatchID }
    let ((linked, pages), k) := LinkPages env k batch prevBatchID
    let prevBatchID := batch.BatchID
    if env.createFails ("data/public/batches/" ++ batch.BatchID ++ ".json") then (written, none)
    else
      match writePages env pages
          (written ++ [⟨"data/public/batches/" ++ batch.BatchID ++ ".json", Json.batch linked⟩]) with
      | (written, false) => (written, none)
      | (written, true) => exportLoop env rest k prevBatchID currentJson written

/-- The function `ExportPublic`: the files it creates under `data/public`, in the order of
creation, and whether it returned without error. -/
def ExportPublic (env : Env) (tweets : List TweetID) : List FileWrite × Bool :=
  if env.removeAllFails then ([], false)
  else
    let (batches, k) := Tweets2BatchesFrom env.clock 0 tweets
    match exportLoop env batches k "" { Head := none, Last := none, UpdatedAt := 0 } [] with
    | (written, none) => (written, false)
    | (written, some (currentJson, k)) =>
      let currentJson := { currentJson with UpdatedAt := unixUint (env.clock k) }
      if env.createFails "data/public/current.json" then (written, false)
      else (written ++ [⟨"data/public/current.json", Json.current currentJson⟩], true)

/-- The Linked Group Records among the files written, in the order of writing. -/
def linkedRecords (written : List FileWrite) : List BatchLinked :=
  written.filterMap fun w =>
    match w.content with
    | Json.batch v => some v
    | _ => none

/-- The Current Pointer Records among the files written, in the order of writing. -/
def currentRecords (written : List FileWrite) : List CurrentJson :=
  written.filterMap fun w =>
    match w.content with
    | Json.current v => some v
    | _ => none

/-- An environment in which the clock stands still and no file operation fails. -/
def quietEnv : Env :=
  { clock := fun _ => 0, intn := fun _ _ => 0, removeAllFails := false,
    createFails := fun _ => false }

/-- The file `CreateJson` writes for a page. -/
def pageFile (page : Page) : FileWrite :=
  ⟨"data/public/pages/" ++ page.ID ++ ".json", Json.page page⟩

/-- The update of `currentJson` in one iteration of the loop of `ExportPublic`. -/
def pointerStep (currentJson : CurrentJson) (batch : Batch) : CurrentJson :=
  if batch.IsHead then { currentJson with Head := some batch.BatchID }
  else { currentJson with Last := some batch.BatchID }

/-- The files the loop of `ExportPublic` writes when no `CreateJson` fails: for each batch its
Linked Group Record, then its pages. -/
def filesFrom (env : Env) : List Batch → Nat → BatchID → List FileWrite
  | [], _, _ => []
  | batch :: rest, k, prevBatchID =>
    (⟨"data/public/batches/" ++ batch.BatchID ++ ".json",
        Json.batch (LinkPages env k batch prevBatchID).1.1⟩
      :: (LinkPages env k batch prevBatchID).1.2.map pageFile)
    ++ filesFrom env rest (k + 3) batch.BatchID

/-- The file `ExportPublic` writes last when no `CreateJson` fails: the Current Pointer
Record after the loop over the batches of `tweets`. -/
def currentFile (env : Env) (tweets : List TweetID) : FileWrite :=
  ⟨"data/public/current.json", Json.current
    { (List.foldl pointerStep { Head := none, Last := none, UpdatedAt := 0 }
        (Tweets2BatchesFrom env.clock 0 tweets).1) with
      UpdatedAt := unixUint (env.clock ((Tweets2BatchesFrom env.clock 0 tweets).2
        + 3 * (Tweets2BatchesFrom env.clock 0 tweets).1.length)) }⟩

/-- In a sequence of files written, every page file comes after a Linked Group Record that
lists the page's ID. -/
def manifestFirst (written : List FileWrite) : Prop :=
  ∀ (j : Nat) (w : FileWrite) (p : Page), written[j]? = some w → w.content = Json.page p →
    ∃ (i : Nat) (m : FileWrite) (l : BatchLinked),
      i < j ∧ written[i]? = some m ∧ m.content = Json.batch l ∧ p.ID ∈ l.Pages

/-- The IDs of the pages of every batch of one export, batch after batch. -/
def exportPageIDs (clock : Nat → Time) (tweets : List TweetID) : List String :=
  (Tweets2Batches clock tweets).flatMap fun b => (SplitPages b b.CreatedAt).map fun p => p.ID

/-- The paths of the page files among the files written, in the order of writing. -/
def pagePaths (written : List FileWrite) : List String :=
  written.filterMap fun w =>
    match w.content with
    | Json.page _ => some w.path
    | _ => none

/-- The number a string of decimal digits denotes. -/
def decimalValue (cs : List Char) : Nat :=
  cs.foldl (fun acc c => 10 * acc + (c.toNat - 48)) 0

/-- The identifiers `1, 2, ..., n`. -/
def idsUpTo (n : Nat) : List TweetID := (List.range n).map fun i => (i : Int) + 1

/-! ## Fetch manager

The embedding of `statuses.go`. What the network, the rate limiter's clock and the file system
answer is taken from oracles. `DownloadStatues` starts one goroutine per identifier; here the
goroutines run one after another in the order of the input, each with oracles of its own, so
which bucket an identifier lands in and what is written for it do not depend on the
schedule. -/

/-- A non-nil Go `error`: the two sentinels of `statuses.go`, an error that wraps nothing
(from `net/http`, `io`, `encoding/json`, `x/time/rate` or `fmt.Errorf` without `%w`), or the
result of `fmt.Errorf` with the verb `%w`. -/
inductive GoError where
  | ErrNotFound
  | ErrTooManyRequests
  | message (msg : String)
  | wrapped (msg : String) (inner : GoError)
  deriving DecidableEq, Repr

/-- The chain walk of `errors.Is` from a non-nil error to a sentinel. -/
def GoError.chainHas : GoError → GoError → Bool
  | GoError.wrapped _ inner, target => inner.chainHas target
  | e, target => decide (e = target)

/-- The function `errors.Is`; `none` is the nil error. -/
def errorsIs : Option GoError → GoError → Bool
  | none, _ => false
  | some e, target => e.chainHas target

/-- The call `fmt.Errorf(msg + "%w", err)`. A nil operand is printed as `%!w(<nil>)` and
nothing is wrapped. -/
def wrapError (msg : String) : Option GoError → GoError
  | some e => GoError.wrapped msg e
  | none => GoError.message (msg ++ "%!w(<nil>)")

structure FixTwitterJson where
  Code : Nat
  Message : String
  Tweet : String
  deriving DecidableEq, Repr

/-- The method `FixTwitterJson.Success`, on a possibly nil pointer. -/
def FixTwitterJson.Success : Option FixTwitterJson → Bool
  | none => false
  | some f => f.Code == 200 && f.Message == "OK"

structure Statues where
  ID : String
  Complete : Bool
  FxtwitterData : Option FixTwitterJson
  SavedAt : Nat
  deriving DecidableEq, Repr

/-- The method `Statues.Success`. -/
def Statues.Success (s : Statues) : Bool :=
  match s.FxtwitterData with
  | none => false
  | some f => FixTwitterJson.Success (some f)

/-- What one HTTP exchange of `fxtBody` gives: a failure to build the request, to get the
response or to read its body, or a status code with a body. -/
inductive HttpResult where
  | failed (msg : String)
  | response (statusCode : Nat) (body : String)
  deriving DecidableEq, Repr

/-- The function `strings.TrimPrefix`. -/
def trimLeading (s lead : String) : String :=
  if lead.data.isPrefixOf s.data then ⟨s.data.drop lead.length⟩ else s

/-- The function `fxtBody`, given the outcome of its HTTP exchange: the body (`none` is nil)
and the error. -/
def fxtBody : HttpResult → Option String × Option GoError
  | HttpResult.failed msg => (none, some (GoError.message msg))
  | HttpResult.response statusCode body =>
    if statusCode = 200 then (some body, none)
    else if statusCode = 404 then (some body, some GoError.ErrNotFound)
    else if statusCode = 429 then (none, some GoError.ErrTooManyRequests)
    else if "error code:".data.isPrefixOf body.data then
      (none, some (GoError.message ("error code: " ++ trimLeading body "error code: ")))
    else (some body, some (GoError.message ("status code: " ++ fmtNat statusCode)))

/-- The function `fxt`; `unmarshal` is `json.Unmarshal` into a `FixTwitterJson`. On an error
the caller does not look at the data, which is given here as the zero value. -/
def fxt (unmarshal : String → Except String FixTwitterJson) (r : HttpResult) :
    FixTwitterJson × Option GoError :=
  match fxtBody r with
  | (_, some err) => (⟨0, "", ""⟩, some err)
  | (body, none) =>
    match unmarshal (body.getD "") with
    | Except.ok data => (data, none)
    | Except.error msg => (⟨0, "", ""⟩, some (GoError.message msg))

/-- The function `downloadStatues`. -/
def downloadStatues (unmarshal : String → Except String FixTwitterJson) (r : HttpResult)
    (tweetID : TweetID) (savedAt : Time) : Statues × Option GoError :=
  let statues : Statues :=
    { ID := fmtInt tweetID, Complete := true, FxtwitterData := none, SavedAt := unixUint savedAt }
  match fxt unmarshal r with
  | (_, some err) =>
    if errorsIs (some err) GoError.ErrNotFound then (statues, none) else (statues, some err)
  | (fixTweet, none) =>
    if FixTwitterJson.Success (some fixTweet) then
      ({ statues with FxtwitterData := some fixTweet }, none)
    else (statues, none)

/-- The struct `RetryManager`. The limiter is kept as the divisor `Wait` last applied to the
base rate: its limit is `limit / limiterDivisor`. The locks are left out. -/
structure RetryManager where
  limiterDivisor : Int
  limit : Rat
  maxRetries : Int
  rateLimitLevel : Nat
  deriving DecidableEq, Repr

def NewRetryManager (limit : Rat) (maxRetries : Int) : RetryManager :=
  { limiterDivisor := 1, limit := limit, maxRetries := maxRetries, rateLimitLevel := 0 }

/-- The conversion `uint(i)` of a Go `int`: a negative value wraps to `2^64 + i`. -/
def uintOfInt (i : Int) : Nat := if 0 ≤ i then i.toNat else (i + 2 ^ 64).toNat

/-- The expression `1 << k` on `int`: it panics (`none`) on a negative count; the result is
wrapped to 64 bits, so it is `2^k` up to `k = 62`, `-2^63` for `k = 63` and `0` beyond. -/
def shiftLeftOne (k : Int) : Option Int :=
  if k < 0 then none else some (toInt64 (2 ^ k.toNat))

/-- The method `RetryManager.getRateLimitLevel`. The level is far below `2^63`, where
`int(rm.rateLimitLevel)` is the level itself. -/
def RetryManager.getRateLimitLevel (rm : RetryManager) : Int :=
  if (rm.rateLimitLevel : Int) > rm.maxRetries then rm.maxRetries else (rm.rateLimitLevel : Int)

/-- The method `RetryManager.Wait`; `limiterWait` is what `rm.limiter.Wait(ctx)` returns.
The result is `none` when the shift panics. -/
def RetryManager.Wait (rm : RetryManager) (limiterWait : Option GoError) :
    Option (RetryManager × Option GoError) :=
  match shiftLeftOne rm.getRateLimitLevel with
  | none => none
  | some n => some ({ rm with limiterDivisor := n }, limiterWait)

/-- The method `RetryManager.Done`. -/
def RetryManager.Done (rm : RetryManager) : RetryManager :=
  if rm.rateLimitLevel > 0 then { rm with rateLimitLevel := rm.rateLimitLevel - 1 } else rm

/-- The method `RetryManager.Fail`. -/
def RetryManager.Fail (rm : RetryManager) : RetryManager :=
  if rm.rateLimitLevel < uintOfInt rm.maxRetries then
    { rm with rateLimitLevel := rm.rateLimitLevel + 1 }
  else rm

/-- A call `RetryManager.Download` makes. -/
inductive Call where
  | Wait
  | downloadStatues
  | Done
  | Fail
  deriving DecidableEq, Repr

/-- What the environment answers to one call of `Download`, by the value of `retries`: the
result of the limiter's wait, the outcome of the HTTP exchange, the reading of `time.Now()`. -/
structure Attempts where
  limiterWait : Nat → Option GoError
  http : Nat → HttpResult
  now : Nat → Time

/-- What `Download` returns (`statues` is `none` for nil) and leaves behind: the manager's
state and the calls made, in order. -/
structure DownloadResult where
  statues : Option Statues
  err : Option GoError
  rm : RetryManager
  calls : List Call
  deriving DecidableEq, Repr

/-- The loop of `RetryManager.Download` with `remaining` iterations left, that is
`maxRetries - retries`; `statues` and `err` are the variables of the same names. The result
is `none` when `Wait` panics. -/
def downloadLoop (unmarshal : String → Except String FixTwitterJson) (o : Attempts)
    (tweetID : TweetID) :
    Nat → Nat → RetryManager → Option Statues → Option GoError → List Call →
      Option DownloadResult
  | 0, _, rm, statues, err, calls =>
    some ⟨statues, some (wrapError "retry limit exceeded: " err), rm, calls⟩
  | remaining + 1, retries, rm, _, _, calls =>
    match rm.Wait (o.limiterWait retries) with
    | none => none
    | some (rm, some e) =>
      some ⟨none, some (GoError.wrapped "rate limiter error: " e), rm, calls ++ [Call.Wait]⟩
    | some (rm, none) =>
      match downloadStatues unmarshal (o.http retries) tweetID (o.now retries) with
      | (statues, err) =>
        if !errorsIs err GoError.ErrTooManyRequests then
          some ⟨some statues, none, rm.Done,
            calls ++ [Call.Wait, Call.downloadStatues, Call.Done]⟩
        else
          downloadLoop unmarshal o tweetID remaining (retries + 1) rm.Fail (some statues) err
            (calls ++ [Call.Wait, Call.downloadStatues, Call.Fail])

/-- The method `RetryManager.Download`. -/
def RetryManager.Download (rm : RetryManager)
    (unmarshal : String → Except String FixTwitterJson) (o : Attempts) (tweetID : TweetID) :
    Option DownloadResult :=
  downloadLoop unmarshal o tweetID rm.maxRetries.toNat 0 rm none none []

/-- What `DownloadStatues` takes from its environment: the answer of `existStatues` (`none`
when the file is missing or unreadable), `json.Unmarshal`, the oracles of the goroutine
started for the `j`-th identifier to download, and which calls of `os.Create` fail. -/
structure FetchEnv where
  existStatues : TweetID → Option Statues
  unmarshal : String → Except String FixTwitterJson
  attempts : Nat → Attempts
  createFails : String → Bool

/-- The state `DownloadStatues` builds: the three buckets, the files `putStatues` wrote,
the calls of `Download` with the calls each made, and the shared manager. -/
structure Summary where
  successTweets : List TweetID
  notfoundTweets : List TweetID
  errorTweets : List TweetID
  written : List (String × Statues)
  downloads : List (TweetID × List Call)
  rm : RetryManager
  deriving DecidableEq, Repr

/-- The path `putStatues` writes a record to. -/
def statuesPath (statues : Statues) : String :=
  "data/private/statuses/" ++ statues.ID ++ ".json"

/-- The body of the goroutine `DownloadStatues` starts for the `j`-th identifier to download.
The result is `none` on a panic: in `Wait`, or in `putStatues` on a nil record. -/
def downloadTask (env : FetchEnv) (j : Nat) (tweetID : TweetID) (s : Summary) :
    Option Summary :=
  match s.rm.Download env.unmarshal (env.attempts j) tweetID with
  | none => none
  | some r =>
    let s := { s with rm := r.rm, downloads := s.downloads ++ [(tweetID, r.calls)] }
    match r.err with
    | some _ => some { s with errorTweets := s.errorTweets ++ [tweetID] }
    | none =>
      match r.statues with
      | none => none
      | some statues =>
        if env.createFails (statuesPath statues) then
          some { s with errorTweets := s.errorTweets ++ [tweetID] }
        else
          let s := { s with written := s.written ++ [(statuesPath statues, statues)] }
          if statues.Success then some { s with successTweets := s.successTweets ++ [tweetID] }
          else some { s with notfoundTweets := s.notfoundTweets ++ [tweetID] }

/-- The goroutines of `DownloadStatues`, one after another. -/
def downloadTasks (env : FetchEnv) : List TweetID → Nat → Summary → Option Summary
  | [], _, s => some s
  | tweetID :: rest, j, s =>
    match downloadTask env j tweetID s with
    | none => none
    | some s => downloadTasks env rest (j + 1) s

/-- The identifiers `DownloadStatues` downloads: the variable `needDownloads`. -/
def needDownloads (env : FetchEnv) (tweets : List TweetID) : List TweetID :=
  tweets.filter fun tweetID =>
    !(match env.existStatues tweetID with
      | some statues => statues.Success
      | none => false)

/-- The limit `rate.Every(time.Second/15)`: one event every 66666666 nanoseconds. -/
def baseLimit : Rat := 1000000000 / 66666666

/-- The function `DownloadStatues`: the summary it prints, with what it wrote on the way. -/
def DownloadStatues (env : FetchEnv) (tweets : List TweetID) : Option Summary :=
  downloadTasks env (needDownloads env tweets) 0
    { successTweets := [], notfoundTweets := [], errorTweets := [], written := [],
      downloads := [], rm := NewRetryManager baseLimit 5 }

/-- The record `downloadStatues` starts from: complete, without payload. -/
def emptyStatues (tweetID : TweetID) (savedAt : Time) : Statues :=
  { ID := fmtInt tweetID, Complete := true, FxtwitterData := none, SavedAt := unixUint savedAt }

/-- The calls of `k` iterations of the loop of `Download` that end in `Fail`. -/
def overloadCalls (k : Nat) : List Call :=
  (List.replicate k [Call.Wait, Call.downloadStatues, Call.Fail]).flatten

/-- An environment with an empty cache in which every HTTP exchange gets the status 500,
the limiter never fails and every file is created. -/
def hardErrorEnv : FetchEnv :=
  { existStatues := fun _ => none
    unmarshal := fun _ => Except.ok ⟨200, "OK", "{}"⟩
    attempts := fun _ =>
      { limiterWait := fun _ => none, http := fun _ => HttpResult.response 500 "oops",
        now := fun _ => 0 }
    createFails := fun _ => false }

/-- An environment with an empty cache in which every HTTP exchange gets the status 429,
the limiter never fails and every file is created. -/
def overloadEnv : FetchEnv :=
  { existStatues := fun _ => none
    unmarshal := fun _ => Except.ok ⟨200, "OK", "{}"⟩
    attempts := fun _ =>
      { limiterWait := fun _ => none, http := fun _ => HttpResult.response 429 "",
        now := fun _ => 0 }
    createFails := fun _ => false }

/-- The oracles of a download that meets the status 429 four times and then the status 200. -/
def fourOverloads : Attempts :=
  { limiterWait := fun _ => none
    http := fun i => if i < 4 then HttpResult.response 429 "" else HttpResult.response 200 "{}"
    now := fun _ => 0 }

/-- What holds of the summary after the goroutines started for the identifiers `ids`. -/
def SummaryInv (s : Summary) (ids : List TweetID) : Prop :=
  s.downloads.map Prod.fst = ids
  ∧ (∀ a, (s.successTweets ++ s.notfoundTweets ++ s.errorTweets).count a = ids.count a)
  ∧ (∀ x, (s.written.map (fun w => w.2.ID)).count x
      = ((s.successTweets ++ s.notfoundTweets).map fmtInt).count x)
  ∧ (∀ w ∈ s.written, w.1 = statuesPath w.2)
  ∧ 0 ≤ s.rm.maxRetries

/-- A feedback call on the manager: `Done` (success) or `Fail` (overload). -/
inductive Report where
  | Done
  | Fail
  deriving DecidableEq, Repr

/-- The manager after a sequence of `Done` and `Fail` calls, made in order. -/
def applyReports (reports : List Report) (rm : RetryManager) : RetryManager :=
  reports.foldl (fun rm report =>
    match report with
    | Report.Done => rm.Done
    | Report.Fail => rm.Fail) rm

/-- A clock that stands still 150000 nanoseconds before the largest `int64` Unix time. -/
def lateClock : Nat → Time := fun _ => 9223372036854625807

/-- A clock that stands still at `2^64 - 151616` nanoseconds after the epoch. -/
def wrapClock : Nat → Time := fun _ => 18446744073709400000

/-- An environment with the clock `wrapClock` in which no file operation fails. -/
def wrapEnv : Env := { quietEnv with clock := wrapClock }

/-! ## Lemmas on the library functions -/

theorem Chunk_length {α : Type} (xs : List α) (size : Nat) (h : size ≠ 0) :
    (Chunk xs size).length = xs.length / size + (if xs.length % size ≠ 0 then 1 else 0) := by
  simp [Chunk, h]

theorem Chunk_eq_map {α : Type} (xs : List α) (size : Nat) (h : size ≠ 0) :
    Chunk xs size =
      (List.range (xs.length / size + (if xs.length % size ≠ 0 then 1 else 0))).map
        (fun i => (xs.take (min ((i + 1) * size) xs.length)).drop (i * size)) := by
  simp [Chunk, h]

theorem Chunk_nil {α : Type} (size : Nat) : Chunk ([] : List α) size = [] := by
  by_cases h : size = 0 <;> simp [Chunk, h]

theorem Chunk_ne_nil {α : Type} (xs : List α) (size : Nat) (h : size ≠ 0) (hx : xs ≠ []) :
    Chunk xs size ≠ [] := by
  intro hc
  have hl := Chunk_length xs size h
  rw [hc] at hl
  have hpos : 0 < xs.length := List.length_pos.mpr hx
  have hsz : 0 < size := Nat.pos_of_ne_zero h
  simp only [List.length_nil] at hl
  by_cases hm : xs.length % size = 0
  · have hd : 0 < xs.length / size :=
      Nat.div_pos (Nat.le_of_dvd hpos (Nat.dvd_of_mod_eq_zero hm)) hsz
    rw [if_neg (not_not.mpr hm), Nat.add_zero] at hl
    rw [← hl] at hd
    exact absurd hd (lt_irrefl 0)
  · rw [if_pos hm] at hl
    exact absurd hl.symm (Nat.succ_ne_zero _)

theorem SortOld2New_sorted (tweets : List TweetID) :
    (SortOld2New tweets).Sorted (fun a b => a ≤ b) :=
  List.sorted_insertionSort (fun a b : Int => a ≤ b) tweets

theorem SortOld2New_perm (tweets : List TweetID) : (SortOld2New tweets).Perm tweets :=
  List.perm_insertionSort (fun a b : Int => a ≤ b) tweets

theorem SortOld2New_length (tweets : List TweetID) :
    (SortOld2New tweets).length = tweets.length :=
  (SortOld2New_perm tweets).length_eq

theorem SortNew2Old_sorted (tweets : List TweetID) :
    (SortNew2Old tweets).Sorted (fun a b => a ≥ b) :=
  List.sorted_insertionSort (fun a b : Int => a ≥ b) tweets

theorem SortNew2Old_perm (tweets : List TweetID) : (SortNew2Old tweets).Perm tweets :=
  List.perm_insertionSort (fun a b : Int => a ≥ b) tweets

theorem SortNew2Old_length (tweets : List TweetID) :
    (SortNew2Old tweets).length = tweets.length :=
  (SortNew2Old_perm tweets).length_eq

/-- Sorting an ascending list newest-first reverses it. -/
theorem SortNew2Old_of_sorted (l : List TweetID) (h : l.Sorted (fun a b => a ≤ b)) :
    SortNew2Old l = l.reverse := by
  have h1 : (l.reverse).Sorted (fun a b : Int => a ≥ b) := by
    unfold List.Sorted
    rw [List.pairwise_reverse]
    exact h
  have h2 : (SortNew2Old l).Perm l.reverse :=
    (SortNew2Old_perm l).trans (List.reverse_perm l).symm
  haveI : IsAntisymm Int (fun a b => a ≥ b) := ⟨fun a b hab hba => le_antisymm hba hab⟩
  exact List.eq_of_perm_of_sorted h2 (SortNew2Old_sorted l) h1

/-- A slice of the ascending sort, sorted newest-first, is the slice reversed. -/
theorem SortNew2Old_slice (tweets : List TweetID) (a b : Nat) :
    SortNew2Old (((SortOld2New tweets).take b).drop a)
      = (((SortOld2New tweets).take b).drop a).reverse := by
  apply SortNew2Old_of_sorted
  have h := SortOld2New_sorted tweets
  exact (h.sublist (List.take_sublist b _)).sublist (List.drop_sublist a _)

/-! ## Lemmas on formatting -/

theorem digitChar_toNat (d : Nat) (h : d < 10) : (Nat.digitChar d).toNat - 48 = d := by
  interval_cases d <;> rfl

theorem digitChar_isDigit (d : Nat) (h : d < 10) : (Nat.digitChar d).isDigit = true := by
  interval_cases d <;> rfl

theorem decimalValue_append (cs : List Char) (c : Char) :
    decimalValue (cs ++ [c]) = 10 * decimalValue cs + (c.toNat - 48) := by
  simp [decimalValue, List.foldl_append]

theorem decimalValue_decimalDigits (fuel n : Nat) (h : n < fuel) :
    decimalValue (decimalDigits fuel n) = n := by
  induction fuel generalizing n with
  | zero => omega
  | succ fuel ih =>
    unfold decimalDigits
    by_cases h10 : n < 10
    · rw [if_pos h10]
      have := decimalValue_append [] (Nat.digitChar n)
      simp only [List.nil_append] at this
      rw [this, digitChar_toNat n h10]
      simp [decimalValue]
    · rw [if_neg h10, decimalValue_append, ih (n / 10) (by omega),
        digitChar_toNat (n % 10) (by omega)]
      omega

theorem decimalDigits_isDigit (fuel n : Nat) :
    ∀ c ∈ decimalDigits fuel n, c.isDigit = true := by
  induction fuel generalizing n with
  | zero => simp [decimalDigits]
  | succ fuel ih =>
    intro c hc
    unfold decimalDigits at hc
    by_cases h10 : n < 10
    · rw [if_pos h10, List.mem_singleton] at hc
      rw [hc]; exact digitChar_isDigit n h10
    · rw [if_neg h10, List.mem_append, List.mem_singleton] at hc
      rcases hc with hc | hc
      · exact ih (n / 10) c hc
      · rw [hc]; exact digitChar_isDigit (n % 10) (by omega)

theorem decimalValue_fmtNat (n : Nat) : decimalValue (fmtNat n).data = n :=
  decimalValue_decimalDigits (n + 1) n (by omega)

theorem fmtNat_injective : Function.Injective fmtNat := by
  intro a b h
  rw [← decimalValue_fmtNat a, ← decimalValue_fmtNat b, h]

theorem fmtNat_isDigit (n : Nat) : ∀ c ∈ (fmtNat n).data, c.isDigit = true :=
  decimalDigits_isDigit (n + 1) n

theorem fmtNat_ne_minus (a b : Nat) : fmtNat a ≠ "-" ++ fmtNat b := by
  intro h
  have h1 : ('-' : Char) ∈ (fmtNat a).data := by
    rw [h]; simp [String.data_append]
  have h2 := fmtNat_isDigit a '-' h1
  exact absurd h2 (by decide)

theorem String_append_left_cancel (p a b : String) (h : p ++ a = p ++ b) : a = b := by
  have h1 := congrArg String.data h
  simp only [String.data_append] at h1
  exact String.ext (List.append_cancel_left h1)

theorem String_append_right_cancel (a b q : String) (h : a ++ q = b ++ q) : a = b := by
  have h1 := congrArg String.data h
  simp only [String.data_append] at h1
  exact String.ext (List.append_cancel_right h1)

theorem fmtInt_injective : Function.Injective fmtInt := by
  intro a b h
  cases a with
  | ofNat a =>
    cases b with
    | ofNat b =>
      simp only [fmtInt] at h
      rw [fmtNat_injective h]
    | negSucc b =>
      simp only [fmtInt] at h
      exact absurd h (fmtNat_ne_minus a (b + 1))
  | negSucc a =>
    cases b with
    | ofNat b =>
      simp only [fmtInt] at h
      exact absurd h.symm (fmtNat_ne_minus b (a + 1))
    | negSucc b =>
      simp only [fmtInt] at h
      have h1 := fmtNat_injective (String_append_left_cancel _ _ _ h)
      have h2 : a = b := by omega
      rw [h2]

/-! ## Lemmas on the batch planner -/

theorem readings_succ (clock : Nat → Time) (k n : Nat) :
    readings clock k (n + 1) = clock k :: readings clock (k + 1) n := by
  simp [readings, List.range_succ_eq_map, Function.comp_def, Nat.add_assoc, Nat.add_comm 1]

theorem readings_succ_last (clock : Nat → Time) (k n : Nat) :
    readings clock k (n + 1) = readings clock k n ++ [clock (k + n)] := by
  simp [readings, List.range_succ]

theorem readings_length (clock : Nat → Time) (k n : Nat) : (readings clock k n).length = n := by
  simp [readings]

theorem createdAtCalls_length (current : Time) (rs : List Time) :
    (createdAtCalls current rs).length = rs.length := by
  induction rs generalizing current with
  | nil => rfl
  | cons r rs ih => simp [createdAtCalls, ih]

theorem createdAtCalls_append (current : Time) (rs : List Time) (r : Time) :
    createdAtCalls current (rs ++ [r])
      = createdAtCalls current rs ++ [nextCreatedAt (rs.foldl nextCreatedAt current) r] := by
  induction rs generalizing current with
  | nil => rfl
  | cons a rs ih => simp [createdAtCalls, ih]

theorem mergedLoop_fst (clock : Nat → Time) (ms : List (List TweetID)) (k : Nat) (cur : Time)
    (acc : List Batch) :
    (mergedLoop clock ms k cur acc).1
      = acc ++ List.zipWith newMergedBatch (createdAtCalls cur (readings clock k ms.length)) ms := by
  induction ms generalizing k cur acc with
  | nil => simp [mergedLoop]
  | cons m ms ih =>
    simp only [mergedLoop, List.length_cons, readings_succ, createdAtCalls, List.zipWith_cons_cons]
    rw [ih]
    simp

theorem mergedLoop_snd (clock : Nat → Time) (ms : List (List TweetID)) (k : Nat) (cur : Time)
    (acc : List Batch) :
    (mergedLoop clock ms k cur acc).2
      = (k + ms.length, (readings clock k ms.length).foldl nextCreatedAt cur) := by
  induction ms generalizing k cur acc with
  | nil => simp [mergedLoop, readings]
  | cons m ms ih =>
    simp only [mergedLoop, List.length_cons, readings_succ, List.foldl_cons]
    rw [ih]
    simp [Nat.add_assoc, Nat.add_comm 1]

/-- The closed form of `Tweets2Batches` on a non-empty input. -/
theorem Tweets2Batches_eq (clock : Nat → Time) (tweets : List TweetID) (h : tweets ≠ []) :
    Tweets2Batches clock tweets
      = List.zipWith newMergedBatch
          (createdAtCalls (createdAtFactory (clock 0))
            (readings clock 1 ((splitTweets tweets).length - 1)))
          ((splitTweets tweets).take ((splitTweets tweets).length - 1))
        ++ [newHeadBatch
              (nextCreatedAt
                ((readings clock 1 ((splitTweets tweets).length - 1)).foldl nextCreatedAt
                  (createdAtFactory (clock 0)))
                (clock (1 + ((splitTweets tweets).length - 1))))
              ((splitTweets tweets).getD ((splitTweets tweets).length - 1) [])] := by
  have hl : ¬ tweets.length = 0 := fun h0 => h (List.length_eq_zero.mp h0)
  have h1 := mergedLoop_fst clock ((splitTweets tweets).take ((splitTweets tweets).length - 1))
    (0 + 1) (createdAtFactory (clock 0)) []
  have h2 := mergedLoop_snd clock ((splitTweets tweets).take ((splitTweets tweets).length - 1))
    (0 + 1) (createdAtFactory (clock 0)) []
  have hlen : ((splitTweets tweets).take ((splitTweets tweets).length - 1)).length
      = (splitTweets tweets).length - 1 := by
    simp
  rw [hlen] at h1 h2
  unfold Tweets2Batches Tweets2BatchesFrom
  rw [if_neg hl]
  unfold splitTweets at h1 h2 ⊢
  rcases hm : mergedLoop clock
    (List.take ((List.map SortNew2Old
        (Chunk (SortOld2New tweets) DEFAULT_MAX_ITEMS_IN_HEADER)).length - 1)
      (List.map SortNew2Old (Chunk (SortOld2New tweets) DEFAULT_MAX_ITEMS_IN_HEADER)))
    (0 + 1) (createdAtFactory (clock 0)) [] with ⟨bs, k1, cur1⟩
  rw [hm] at h1 h2
  simp only [Prod.mk.injEq] at h2
  obtain ⟨hk, hc⟩ := h2
  simp only at h1
  subst h1 hk hc
  simp only [hm, List.nil_append, Nat.zero_add]

theorem zipWith_newMergedBatch_Tweets (ts : List Time) (ms : List (List TweetID))
    (h : ms.length ≤ ts.length) :
    (List.zipWith newMergedBatch ts ms).map (fun b => b.Tweets) = ms := by
  induction ms generalizing ts with
  | nil => simp
  | cons m ms ih =>
    cases ts with
    | nil => simp at h
    | cons t ts =>
      simp only [List.length_cons, Nat.add_le_add_iff_right] at h
      simp [newMergedBatch, ih ts h]

theorem zipWith_newMergedBatch_CreatedAt (ts : List Time) (ms : List (List TweetID))
    (h : ts.length ≤ ms.length) :
    (List.zipWith newMergedBatch ts ms).map (fun b => b.CreatedAt) = ts := by
  induction ts generalizing ms with
  | nil => simp
  | cons t ts ih =>
    cases ms with
    | nil => simp at h
    | cons m ms =>
      simp only [List.length_cons, Nat.add_le_add_iff_right] at h
      simp [newMergedBatch, ih ms h]

theorem zipWith_newMergedBatch_IsHead (ts : List Time) (ms : List (List TweetID)) :
    ∀ b ∈ List.zipWith newMergedBatch ts ms, b.IsHead = false := by
  induction ts generalizing ms with
  | nil => simp
  | cons t ts ih =>
    cases ms with
    | nil => simp
    | cons m ms =>
      intro b hb
      simp only [List.zipWith_cons_cons, List.mem_cons] at hb
      rcases hb with hb | hb
      · rw [hb]; rfl
      · exact ih ms b hb

theorem zipWith_newMergedBatch_BatchID (ts : List Time) (ms : List (List TweetID)) :
    ∀ b ∈ List.zipWith newMergedBatch ts ms, b.BatchID = NewBatchID b.CreatedAt := by
  induction ts generalizing ms with
  | nil => simp
  | cons t ts ih =>
    cases ms with
    | nil => simp
    | cons m ms =>
      intro b hb
      simp only [List.zipWith_cons_cons, List.mem_cons] at hb
      rcases hb with hb | hb
      · rw [hb]; rfl
      · exact ih ms b hb

theorem take_append_getD {α : Type} (l : List α) (d : α) (h : l ≠ []) :
    l.take (l.length - 1) ++ [l.getD (l.length - 1) d] = l := by
  have hpos : 0 < l.length := List.length_pos.mpr h
  have hlt : l.length - 1 < l.length := by omega
  have h1 : l.getD (l.length - 1) d = l[l.length - 1] := by
    simp [List.getD, List.getElem?_eq_getElem hlt]
  rw [h1]
  have h2 := List.take_append_drop (l.length - 1) l
  have h3 : l.drop (l.length - 1) = [l[l.length - 1]] := by
    rw [List.drop_eq_getElem_cons hlt]
    have : l.length - 1 + 1 = l.length := by omega
    simp [this]
  rw [h3] at h2
  exact h2

theorem splitTweets_length (tweets : List TweetID) :
    (splitTweets tweets).length = (tweets.length + 19) / 20 := by
  unfold splitTweets
  rw [List.length_map, Chunk_length _ _ (by decide), SortOld2New_length]
  simp only [DEFAULT_MAX_ITEMS_IN_HEADER]
  split <;> omega

theorem splitTweets_nil : splitTweets [] = [] := by
  simp [splitTweets, SortOld2New, Chunk_nil]

theorem splitTweets_ne_nil (tweets : List TweetID) (h : tweets ≠ []) : splitTweets tweets ≠ [] := by
  intro hc
  have hl := splitTweets_length tweets
  rw [hc] at hl
  have hpos : 0 < tweets.length := List.length_pos.mpr h
  simp only [List.length_nil] at hl
  omega

theorem Tweets2Batches_nil (clock : Nat → Time) : Tweets2Batches clock [] = [] := by
  simp [Tweets2Batches, Tweets2BatchesFrom]

theorem Tweets2Batches_map_Tweets (clock : Nat → Time) (tweets : List TweetID) :
    (Tweets2Batches clock tweets).map (fun b => b.Tweets) = splitTweets tweets := by
  by_cases h : tweets = []
  · subst h; rw [Tweets2Batches_nil, splitTweets_nil]; rfl
  · rw [Tweets2Batches_eq clock tweets h, List.map_append,
      zipWith_newMergedBatch_Tweets _ _ (by simp [createdAtCalls_length, readings_length])]
    simp only [List.map_cons, List.map_nil, newHeadBatch]
    exact take_append_getD _ _ (splitTweets_ne_nil tweets h)

theorem Tweets2Batches_length (clock : Nat → Time) (tweets : List TweetID) :
    (Tweets2Batches clock tweets).length = (tweets.length + 19) / 20 := by
  rw [← splitTweets_length, ← Tweets2Batches_map_Tweets clock tweets, List.length_map]

theorem Tweets2Batches_map_CreatedAt (clock : Nat → Time) (tweets : List TweetID) :
    (Tweets2Batches clock tweets).map (fun b => b.CreatedAt)
      = createdAtCalls (createdAtFactory (clock 0)) (readings clock 1 (splitTweets tweets).length) := by
  by_cases h : tweets = []
  · subst h; rw [Tweets2Batches_nil, splitTweets_nil]; rfl
  · have hpos : 0 < (splitTweets tweets).length :=
      List.length_pos.mpr (splitTweets_ne_nil tweets h)
    have hm : (splitTweets tweets).length = ((splitTweets tweets).length - 1) + 1 := by omega
    rw [Tweets2Batches_eq clock tweets h, List.map_append,
      zipWith_newMergedBatch_CreatedAt _ _ (by simp [createdAtCalls_length, readings_length])]
    conv_rhs => rw [hm, readings_succ_last, createdAtCalls_append]
    simp [newHeadBatch]

theorem Tweets2Batches_BatchID (clock : Nat → Time) (tweets : List TweetID) :
    ∀ b ∈ Tweets2Batches clock tweets, b.BatchID = NewBatchID b.CreatedAt := by
  by_cases h : tweets = []
  · subst h; rw [Tweets2Batches_nil]; simp
  · rw [Tweets2Batches_eq clock tweets h]
    intro b hb
    rcases List.mem_append.mp hb with hb | hb
    · exact zipWith_newMergedBatch_BatchID _ _ b hb
    · simp only [List.mem_singleton] at hb
      rw [hb]; rfl

theorem Tweets2Batches_map_IsHead (clock : Nat → Time) (tweets : List TweetID) :
    (Tweets2Batches clock tweets).map (fun b => b.IsHead)
      = List.replicate ((tweets.length + 19) / 20 - 1) false
          ++ (if tweets = [] then [] else [true]) := by
  by_cases h : tweets = []
  · subst h; rw [Tweets2Batches_nil]; simp
  · have hpos : 0 < (splitTweets tweets).length :=
      List.length_pos.mpr (splitTweets_ne_nil tweets h)
    rw [if_neg h, Tweets2Batches_eq clock tweets h, List.map_append, ← splitTweets_length]
    congr 1
    rw [List.eq_replicate_iff]
    constructor
    · simp [createdAtCalls_length, readings_length]
    · intro x hx
      obtain ⟨b, hb, rfl⟩ := List.mem_map.mp hx
      exact zipWith_newMergedBatch_IsHead _ _ b hb

theorem splitTweets_eq_map (tweets : List TweetID) :
    splitTweets tweets
      = (List.range ((tweets.length + 19) / 20)).map (fun i =>
          (((SortOld2New tweets).take (min (20 * i + 20) tweets.length)).drop (20 * i)).reverse) := by
  have hn : tweets.length / 20 + (if tweets.length % 20 ≠ 0 then 1 else 0)
      = (tweets.length + 19) / 20 := by
    split <;> omega
  unfold splitTweets
  rw [Chunk_eq_map _ _ (by decide), SortOld2New_length, List.map_map]
  simp only [DEFAULT_MAX_ITEMS_IN_HEADER, hn]
  apply List.map_congr_left
  intro i _
  simp only [Function.comp_apply]
  rw [SortNew2Old_slice]
  have h1 : (i + 1) * 20 = 20 * i + 20 := by omega
  have h2 : i * 20 = 20 * i := by omega
  rw [h1, h2]

theorem splitTweets_getElem? (tweets : List TweetID) (i : Nat) (h : i < (tweets.length + 19) / 20) :
    (splitTweets tweets)[i]?
      = some ((((SortOld2New tweets).take (min (20 * i + 20) tweets.length)).drop (20 * i)).reverse) := by
  rw [splitTweets_eq_map]
  simp [List.getElem?_map, List.getElem?_range h]

theorem slice_length (tweets : List TweetID) (i : Nat) :
    ((((SortOld2New tweets).take (min (20 * i + 20) tweets.length)).drop (20 * i)).reverse).length
      = min (20 * i + 20) tweets.length - 20 * i := by
  simp [SortOld2New_length]

/-- The `i`-th batch of `Tweets2Batches`: its members and its head flag. -/
theorem Tweets2Batches_getElem? (clock : Nat → Time) (tweets : List TweetID) (i : Nat) (b : Batch)
    (h : (Tweets2Batches clock tweets)[i]? = some b) :
    i < (tweets.length + 19) / 20
    ∧ b.Tweets
        = (((SortOld2New tweets).take (min (20 * i + 20) tweets.length)).drop (20 * i)).reverse
    ∧ b.IsHead = decide (i + 1 = (tweets.length + 19) / 20) := by
  have hi : i < (tweets.length + 19) / 20 := by
    rw [← Tweets2Batches_length clock tweets]
    exact (List.getElem?_eq_some_iff.mp h).1
  refine ⟨hi, ?_, ?_⟩
  · have h1 := congrArg (fun l => l[i]?) (Tweets2Batches_map_Tweets clock tweets)
    simp only [List.getElem?_map, h, Option.map_some', splitTweets_getElem? tweets i hi] at h1
    exact Option.some.inj h1
  · have h1 := congrArg (fun l => l[i]?) (Tweets2Batches_map_IsHead clock tweets)
    simp only [List.getElem?_map, h, Option.map_some'] at h1
    have hne : tweets ≠ [] := by
      intro h0; subst h0; simp at hi
    rw [if_neg hne] at h1
    by_cases hlast : i + 1 = (tweets.length + 19) / 20
    · have : i = (List.replicate ((tweets.length + 19) / 20 - 1) false).length := by
        simp; omega
      rw [List.getElem?_append_right (by omega)] at h1
      simp [← this] at h1
      simp [hlast, ← h1]
    · rw [List.getElem?_append_left (by simp; omega)] at h1
      rw [List.getElem?_replicate] at h1
      have hlt : i < (tweets.length + 19) / 20 - 1 := by omega
      simp [hlt] at h1
      simp [hlast, ← h1]

/-- The groups planned for the identifiers `1..25`, whatever the clock reads. -/
theorem Tweets2Batches_ids25 (clock : Nat → Time) :
    (Tweets2Batches clock (idsUpTo 25)).map (fun b => (b.Tweets, b.IsHead))
      = [([20, 19, 18, 17, 16, 15, 14, 13, 12, 11, 10, 9, 8, 7, 6, 5, 4, 3, 2, 1], false),
         ([25, 24, 23, 22, 21], true)] := by
  rw [← List.zip_map', Tweets2Batches_map_Tweets, Tweets2Batches_map_IsHead]
  decide

/-! ## Lemmas on the generator of creation times -/

theorem truncate_dvd (t : Time) : ROUND_CREATED_AT ∣ truncate t ROUND_CREATED_AT := by
  unfold truncate
  exact Int.dvd_sub_of_emod_eq rfl

theorem createdAtFactory_dvd (t : Time) : ROUND_CREATED_AT ∣ createdAtFactory t :=
  truncate_dvd t

theorem nextCreatedAt_gt (current now : Time) : current < nextCreatedAt current now := by
  unfold nextCreatedAt
  simp only
  split
  · assumption
  · simp [ROUND_CREATED_AT]

theorem nextCreatedAt_dvd (current now : Time) (h : ROUND_CREATED_AT ∣ current) :
    ROUND_CREATED_AT ∣ nextCreatedAt current now := by
  unfold nextCreatedAt
  simp only
  split
  · exact truncate_dvd now
  · exact Int.dvd_add h (dvd_refl _)

theorem createdAtCalls_gt (current : Time) (rs : List Time) :
    ∀ t ∈ createdAtCalls current rs, current < t := by
  induction rs generalizing current with
  | nil => simp [createdAtCalls]
  | cons r rs ih =>
    intro t ht
    simp only [createdAtCalls, List.mem_cons] at ht
    rcases ht with ht | ht
    · rw [ht]; exact nextCreatedAt_gt current r
    · exact lt_trans (nextCreatedAt_gt current r) (ih _ t ht)

theorem createdAtCalls_dvd (current : Time) (rs : List Time) (h : ROUND_CREATED_AT ∣ current) :
    ∀ t ∈ createdAtCalls current rs, ROUND_CREATED_AT ∣ t := by
  induction rs generalizing current with
  | nil => simp [createdAtCalls]
  | cons r rs ih =>
    intro t ht
    simp only [createdAtCalls, List.mem_cons] at ht
    rcases ht with ht | ht
    · rw [ht]; exact nextCreatedAt_dvd current r h
    · exact ih _ (nextCreatedAt_dvd current r h) t ht

theorem createdAtCalls_pairwise (current : Time) (rs : List Time) :
    (createdAtCalls current rs).Pairwise (fun a b => a < b) := by
  induction rs generalizing current with
  | nil => simp [createdAtCalls]
  | cons r rs ih =>
    simp only [createdAtCalls, List.pairwise_cons]
    exact ⟨createdAtCalls_gt _ rs, ih _⟩

theorem toInt64_of_range (x : Int) (h : UnixNanoRange x) : toInt64 x = x := by
  obtain ⟨h1, h2⟩ := h
  have e63 : (2 : Int) ^ 63 = 9223372036854775808 := by norm_num
  have e64 : (2 : Int) ^ 64 = 18446744073709551616 := by norm_num
  unfold toInt64
  rw [e63] at h1 h2 ⊢
  rw [e64]
  have h1' : (-9223372036854775808 : Int) ≤ x := h1
  have h2' : x < (9223372036854775808 : Int) := h2
  rw [Int.emod_eq_of_lt (by omega) (by omega)]
  omega

/-- On the grid, within the range of `UnixNano`, the number printed by `NewBatchID` grows
strictly with the instant. -/
theorem tdiv_lt_of_dvd (a b : Time) (ha : ROUND_CREATED_AT ∣ a) (hb : ROUND_CREATED_AT ∣ b)
    (hra : UnixNanoRange a) (hrb : UnixNanoRange b) (h : a < b) :
    Int.tdiv (unixNano a) ROUND_CREATED_AT < Int.tdiv (unixNano b) ROUND_CREATED_AT := by
  unfold unixNano
  rw [toInt64_of_range a hra, toInt64_of_range b hrb]
  obtain ⟨qa, rfl⟩ := ha
  obtain ⟨qb, rfl⟩ := hb
  rw [Int.mul_tdiv_cancel_left _ (by decide), Int.mul_tdiv_cancel_left _ (by decide)]
  exact Int.lt_of_mul_lt_mul_left h (by decide)

theorem NewBatchID_ne_of_lt (a b : Time) (ha : ROUND_CREATED_AT ∣ a) (hb : ROUND_CREATED_AT ∣ b)
    (hra : UnixNanoRange a) (hrb : UnixNanoRange b) (h : a < b) :
    NewBatchID a ≠ NewBatchID b := by
  intro he
  unfold NewBatchID at he
  have h1 := fmtInt_injective (String_append_right_cancel _ _ _ he)
  have h2 := tdiv_lt_of_dvd a b ha hb hra hrb h
  rw [h1] at h2
  exact lt_irrefl _ h2

theorem NewBatchID_ne_empty (t : Time) : NewBatchID t ≠ "" := by
  intro h
  have h1 := congrArg String.length h
  simp [NewBatchID, String.length_append] at h1
  have : ("-auto" : String).length = 5 := by decide
  omega

theorem createdAtCalls_ids_nodup (current : Time) (rs : List Time)
    (h : ROUND_CREATED_AT ∣ current) (hr : ∀ t ∈ createdAtCalls current rs, UnixNanoRange t) :
    ((createdAtCalls current rs).map NewBatchID).Nodup := by
  unfold List.Nodup
  rw [List.pairwise_map]
  exact (createdAtCalls_pairwise current rs).imp_of_mem
    (fun ha hb hab => NewBatchID_ne_of_lt _ _ (createdAtCalls_dvd current rs h _ ha)
      (createdAtCalls_dvd current rs h _ hb) (hr _ ha) (hr _ hb) hab)

theorem createdAtCalls_numbers_pairwise (current : Time) (rs : List Time)
    (h : ROUND_CREATED_AT ∣ current) (hr : ∀ t ∈ createdAtCalls current rs, UnixNanoRange t) :
    ((createdAtCalls current rs).map
      (fun t => Int.tdiv (unixNano t) ROUND_CREATED_AT)).Pairwise (fun a b => a < b) := by
  rw [List.pairwise_map]
  exact (createdAtCalls_pairwise current rs).imp_of_mem
    (fun ha hb hab => tdiv_lt_of_dvd _ _ (createdAtCalls_dvd current rs h _ ha)
      (createdAtCalls_dvd current rs h _ hb) (hr _ ha) (hr _ hb) hab)

theorem Tweets2Batches_map_BatchID (clock : Nat → Time) (tweets : List TweetID) :
    (Tweets2Batches clock tweets).map (fun b => b.BatchID)
      = ((Tweets2Batches clock tweets).map (fun b => b.CreatedAt)).map NewBatchID := by
  rw [List.map_map]
  apply List.map_congr_left
  intro b hb
  exact Tweets2Batches_BatchID clock tweets b hb

theorem Tweets2Batches_range (clock : Nat → Time) (tweets : List TweetID)
    (hr : ∀ b ∈ Tweets2Batches clock tweets, UnixNanoRange b.CreatedAt) :
    ∀ t ∈ createdAtCalls (createdAtFactory (clock 0))
      (readings clock 1 (splitTweets tweets).length), UnixNanoRange t := by
  intro t ht
  rw [← Tweets2Batches_map_CreatedAt] at ht
  obtain ⟨b, hb, rfl⟩ := List.mem_map.mp ht
  exact hr b hb

theorem Tweets2Batches_ids_nodup (clock : Nat → Time) (tweets : List TweetID)
    (hr : ∀ b ∈ Tweets2Batches clock tweets, UnixNanoRange b.CreatedAt) :
    ((Tweets2Batches clock tweets).map (fun b => b.BatchID)).Nodup := by
  rw [Tweets2Batches_map_BatchID, Tweets2Batches_map_CreatedAt]
  exact createdAtCalls_ids_nodup _ _ (createdAtFactory_dvd _)
    (Tweets2Batches_range clock tweets hr)

theorem Tweets2Batches_ids_ne_empty (clock : Nat → Time) (tweets : List TweetID) :
    ∀ b ∈ Tweets2Batches clock tweets, b.BatchID ≠ "" := by
  intro b hb
  rw [Tweets2Batches_BatchID clock tweets b hb]
  exact NewBatchID_ne_empty _

/-! ## Lemmas on the page splitter -/

theorem loMapFrom_length {α β : Type} (f : α → Nat → β) (i : Nat) (l : List α) :
    (loMapFrom f i l).length = l.length := by
  induction l generalizing i with
  | nil => rfl
  | cons x xs ih => simp [loMapFrom, ih]

theorem loMap_length {α β : Type} (l : List α) (f : α → Nat → β) :
    (loMap l f).length = l.length :=
  loMapFrom_length f 0 l

theorem loMapFrom_getElem? {α β : Type} (f : α → Nat → β) (i j : Nat) (l : List α) :
    (loMapFrom f i l)[j]? = (l[j]?).map (fun x => f x (i + j)) := by
  induction l generalizing i j with
  | nil => simp [loMapFrom]
  | cons x xs ih =>
    cases j with
    | zero => simp [loMapFrom]
    | succ j =>
      simp only [loMapFrom, List.getElem?_cons_succ, ih]
      have : i + 1 + j = i + (j + 1) := by omega
      rw [this]

theorem loMap_getElem? {α β : Type} (f : α → Nat → β) (j : Nat) (l : List α) :
    (loMap l f)[j]? = (l[j]?).map (fun x => f x j) := by
  unfold loMap
  rw [loMapFrom_getElem?]
  simp

theorem loMapFrom_eq_map {α β : Type} (g : α → β) (i : Nat) (l : List α) :
    loMapFrom (fun x _ => g x) i l = l.map g := by
  induction l generalizing i with
  | nil => rfl
  | cons x xs ih => simp [loMapFrom, ih]

theorem loMap_eq_map {α β : Type} (g : α → β) (l : List α) :
    loMap l (fun x _ => g x) = l.map g :=
  loMapFrom_eq_map g 0 l

theorem map_loMapFrom {α β γ : Type} (g : β → γ) (f : α → Nat → β) (i : Nat) (l : List α) :
    (loMapFrom f i l).map g = loMapFrom (fun x j => g (f x j)) i l := by
  induction l generalizing i with
  | nil => rfl
  | cons x xs ih => simp [loMapFrom, ih]

theorem map_loMap {α β γ : Type} (g : β → γ) (f : α → Nat → β) (l : List α) :
    (loMap l f).map g = loMap l (fun x j => g (f x j)) :=
  map_loMapFrom g f 0 l

theorem SplitPages_head (b : Batch) (createdAt : Time) (h : b.IsHead = true) :
    SplitPages b createdAt
      = b.Tweets.map (fun tweet =>
          ({ ID := "head/" ++ b.BatchID ++ "/" ++ fmtInt tweet
             Statuses := [{ ID := fmtInt tweet, Timestamp := unixUint createdAt }]
             CreatedAt := unixUint createdAt } : Page)) := by
  unfold SplitPages
  rw [if_pos h, loMap_eq_map]

theorem SplitPages_merged_length (b : Batch) (createdAt : Time) (h : b.IsHead = false) :
    (SplitPages b createdAt).length = (b.Tweets.length + 9) / 10 := by
  unfold SplitPages
  rw [if_neg (by simp [h]), loMap_length, Chunk_length _ _ (by decide), SortNew2Old_length]
  simp only [DEFAULT_MAX_ITEMS_PER_PAGE]
  split <;> omega

theorem SplitPages_length (b : Batch) (createdAt : Time) :
    (SplitPages b createdAt).length
      = if b.IsHead then b.Tweets.length else (b.Tweets.length + 9) / 10 := by
  cases h : b.IsHead
  · simp [SplitPages_merged_length b createdAt h]
  · simp [SplitPages_head b createdAt h]

theorem SplitPages_merged_entries (b : Batch) (createdAt : Time) (h : b.IsHead = false) :
    (SplitPages b createdAt).map (fun p => p.Statuses.map (fun e => e.ID))
      = (Chunk (SortNew2Old b.Tweets) DEFAULT_MAX_ITEMS_PER_PAGE).map (List.map fmtInt) := by
  unfold SplitPages
  rw [if_neg (by simp [h]), map_loMap]
  simp only [map_loMap, loMap_eq_map, List.map_map, Function.comp_def]

theorem Chunk_getElem? {α : Type} (xs : List α) (size i : Nat) (c : List α)
    (h : (Chunk xs size)[i]? = some c) :
    size ≠ 0 ∧ c = (xs.take (min ((i + 1) * size) xs.length)).drop (i * size) := by
  by_cases hs : size = 0
  · simp [Chunk, hs] at h
  · refine ⟨hs, ?_⟩
    rw [Chunk_eq_map xs size hs, List.getElem?_map] at h
    cases hr : (List.range (xs.length / size + (if xs.length % size ≠ 0 then 1 else 0)))[i]? with
    | none => rw [hr] at h; simp at h
    | some j =>
      rw [hr] at h
      have hj : j = i := by
        have := List.getElem?_eq_some_iff.mp hr
        obtain ⟨hlt, hget⟩ := this
        simp at hget
        exact hget.symm
      subst hj
      simp only [Option.map_some', Option.some.injEq] at h
      exact h.symm

/-- In a list whose elements are pairwise related, every element of a slice is related to
every element of a slice that starts at or after the end of the first. -/
theorem slice_cross {α : Type} {R : α → α → Prop} (xs : List α) (hp : xs.Pairwise R)
    (a b c d : Nat) (hbc : b ≤ c) (x y : α) (hx : x ∈ (xs.take b).drop a)
    (hy : y ∈ (xs.take d).drop c) : R x y := by
  have hx1 : x ∈ xs.take b := List.mem_of_mem_drop hx
  rw [List.drop_take] at hy
  have hy1 : y ∈ xs.drop c := List.mem_of_mem_take hy
  have hy2 : y ∈ xs.drop b := by
    have : xs.drop c = (xs.drop b).drop (c - b) := by
      rw [List.drop_drop]
      congr 1
      omega
    rw [this] at hy1
    exact List.mem_of_mem_drop hy1
  rw [← List.take_append_drop b xs] at hp
  exact (List.pairwise_append.mp hp).2.2 x hx1 y hy2

theorem SortNew2Old_strict (tweets : List TweetID) (h : tweets.Nodup) :
    (SortNew2Old tweets).Pairwise (fun a b => a > b) :=
  List.Sorted.gt_of_ge (SortNew2Old_sorted tweets) ((SortNew2Old_perm tweets).nodup_iff.mpr h)

/-- The `i`-th page of a non-head group holds the decimal forms of the `i`-th chunk of 10
of the members sorted newest-first. -/
theorem SplitPages_merged_getElem? (b : Batch) (createdAt : Time) (h : b.IsHead = false)
    (i : Nat) (p : Page) (hp : (SplitPages b createdAt)[i]? = some p) :
    p.Statuses.map (fun e => e.ID)
      = (((SortNew2Old b.Tweets).take (min ((i + 1) * 10) b.Tweets.length)).drop (i * 10)).map
          fmtInt := by
  have h1 := congrArg (fun l => l[i]?) (SplitPages_merged_entries b createdAt h)
  simp only [List.getElem?_map, hp, Option.map_some'] at h1
  cases hc : (Chunk (SortNew2Old b.Tweets) DEFAULT_MAX_ITEMS_PER_PAGE)[i]? with
  | none => rw [hc] at h1; simp at h1
  | some c =>
    rw [hc] at h1
    simp only [Option.map_some', Option.some.injEq] at h1
    obtain ⟨_, hc'⟩ := Chunk_getElem? _ _ _ _ hc
    rw [h1, hc', SortNew2Old_length]
    rfl

/-! ## Lemmas on the linked exporter -/

theorem writePages_ok (env : Env) (hcr : ∀ p, env.createFails p = false) (pages : List Page)
    (written : List FileWrite) :
    writePages env pages written = (written ++ pages.map pageFile, true) := by
  induction pages generalizing written with
  | nil => simp [writePages]
  | cons page rest ih =>
    simp only [writePages, hcr, Bool.false_eq_true, if_false, ih, List.map_cons,
      List.append_assoc, List.singleton_append, pageFile]

theorem exportLoop_ok (env : Env) (hcr : ∀ p, env.createFails p = false) (bs : List Batch)
    (k : Nat) (prev : BatchID) (cur : CurrentJson) (written : List FileWrite) :
    exportLoop env bs k prev cur written
      = (written ++ filesFrom env bs k prev, some (bs.foldl pointerStep cur, k + 3 * bs.length)) := by
  induction bs generalizing k prev cur written with
  | nil => simp [exportLoop, filesFrom]
  | cons b rest ih =>
    simp only [exportLoop, hcr, Bool.false_eq_true, if_false, writePages_ok env hcr]
    rw [show (LinkPages env k b prev).2 = k + 3 from rfl, ih]
    simp only [filesFrom, List.foldl_cons, pointerStep, List.length_cons, List.append_assoc,
      List.singleton_append, List.cons_append, Prod.mk.injEq, Option.some.injEq, true_and]
    exact ⟨by simp, by omega⟩

theorem Tweets2BatchesFrom_zero (clock : Nat → Time) (tweets : List TweetID) :
    Tweets2BatchesFrom clock 0 tweets
      = (Tweets2Batches clock tweets, (Tweets2BatchesFrom clock 0 tweets).2) := rfl

theorem writePages_cases (env : Env) (pages : List Page) (written : List FileWrite) :
    (∃ t, t <+: pages.map pageFile ∧ writePages env pages written = (written ++ t, false))
    ∨ writePages env pages written = (written ++ pages.map pageFile, true) := by
  induction pages generalizing written with
  | nil => right; simp [writePages]
  | cons page rest ih =>
    unfold writePages
    by_cases hf : env.createFails ("data/public/pages/" ++ page.ID ++ ".json") = true
    · left
      exact ⟨[], List.nil_prefix, by simp [hf]⟩
    · rw [if_neg hf]
      rcases ih (written ++ [⟨"data/public/pages/" ++ page.ID ++ ".json", Json.page page⟩])
        with ⟨t, ht, he⟩ | he
      · left
        refine ⟨pageFile page :: t, ?_, ?_⟩
        · rw [List.map_cons, List.prefix_cons_inj]
          exact ht
        · rw [he]
          simp [pageFile]
      · right
        rw [he]
        simp [pageFile]

theorem exportLoop_cases (env : Env) (bs : List Batch) (k : Nat) (prev : BatchID)
    (cur : CurrentJson) (written : List FileWrite) :
    (∃ t, t <+: filesFrom env bs k prev ∧ exportLoop env bs k prev cur written = (written ++ t, none))
    ∨ exportLoop env bs k prev cur written
        = (written ++ filesFrom env bs k prev,
            some (bs.foldl pointerStep cur, k + 3 * bs.length)) := by
  induction bs generalizing k prev cur written with
  | nil => right; simp [exportLoop, filesFrom]
  | cons b rest ih =>
    unfold exportLoop
    simp only
    by_cases hf : env.createFails ("data/public/batches/" ++ b.BatchID ++ ".json") = true
    · left
      exact ⟨[], List.nil_prefix, by simp [hf]⟩
    · rw [if_neg hf]
      rcases writePages_cases env (LinkPages env k b prev).1.2
          (written ++ [⟨"data/public/batches/" ++ b.BatchID ++ ".json",
            Json.batch (LinkPages env k b prev).1.1⟩]) with ⟨t, ht, he⟩ | he
      · left
        rw [he]
        refine ⟨⟨"data/public/batches/" ++ b.BatchID ++ ".json",
            Json.batch (LinkPages env k b prev).1.1⟩ :: t, ?_, by simp⟩
        rw [filesFrom, List.cons_append, List.prefix_cons_inj]
        exact ht.trans (List.prefix_append _ _)
      · rw [he]
        simp only
        rw [show (LinkPages env k b prev).2 = k + 3 from rfl]
        rcases ih (k + 3) b.BatchID
            (if b.IsHead = true then { cur with Head := some b.BatchID }
              else { cur with Last := some b.BatchID })
            (written ++ [⟨"data/public/batches/" ++ b.BatchID ++ ".json",
              Json.batch (LinkPages env k b prev).1.1⟩]
              ++ (LinkPages env k b prev).1.2.map pageFile) with ⟨t, ht, he2⟩ | he2
        · left
          rw [he2]
          refine ⟨(⟨"data/public/batches/" ++ b.BatchID ++ ".json",
              Json.batch (LinkPages env k b prev).1.1⟩
            :: (LinkPages env k b prev).1.2.map pageFile) ++ t, ?_, by simp⟩
          rw [filesFrom, List.prefix_append_right_inj]
          exact ht
        · right
          rw [he2]
          simp only [filesFrom, List.foldl_cons, pointerStep, List.length_cons, List.append_assoc,
            List.singleton_append, List.cons_append, Prod.mk.injEq, Option.some.injEq, true_and]
          exact ⟨by simp, by omega⟩

/-- The files `ExportPublic` writes, whichever file operations fail, are an initial part of
the files it writes when none fails. -/
theorem ExportPublic_initial (env : Env) (tweets : List TweetID) :
    (ExportPublic env tweets).1
      <+: filesFrom env (Tweets2Batches env.clock tweets) (Tweets2BatchesFrom env.clock 0 tweets).2 ""
          ++ [currentFile env tweets] := by
  unfold ExportPublic
  by_cases hrm : env.removeAllFails = true
  · rw [if_pos hrm]
    exact List.nil_prefix
  · rw [if_neg hrm, Tweets2BatchesFrom_zero]
    simp only
    rcases exportLoop_cases env (Tweets2Batches env.clock tweets)
        (Tweets2BatchesFrom env.clock 0 tweets).2 ""
        { Head := none, Last := none, UpdatedAt := 0 } [] with ⟨t, ht, he⟩ | he
    · rw [he]
      simp only [List.nil_append]
      exact ht.trans (List.prefix_append _ _)
    · rw [he]
      simp only [List.nil_append]
      by_cases hf : env.createFails "data/public/current.json" = true
      · rw [if_pos hf]
        exact List.prefix_append _ _
      · rw [if_neg hf]
        exact List.prefix_refl _

/-- The files `ExportPublic` writes when no file operation fails. -/
theorem ExportPublic_ok (env : Env) (hrm : env.removeAllFails = false)
    (hcr : ∀ p, env.createFails p = false) (tweets : List TweetID) :
    ExportPublic env tweets
      = (filesFrom env (Tweets2Batches env.clock tweets) (Tweets2BatchesFrom env.clock 0 tweets).2 ""
          ++ [currentFile env tweets], true) := by
  unfold ExportPublic
  rw [hrm, Tweets2BatchesFrom_zero]
  simp only [Bool.false_eq_true, if_false, exportLoop_ok env hcr, hcr, List.nil_append]
  rfl

theorem prefix_getElem? {α : Type} (l₁ l₂ : List α) (h : l₁ <+: l₂) (i : Nat) (x : α)
    (hx : l₁[i]? = some x) : l₂[i]? = some x := by
  obtain ⟨t, rfl⟩ := h
  rw [List.getElem?_append_left (List.getElem?_eq_some_iff.mp hx).1]
  exact hx

theorem linkedRecords_append (a b : List FileWrite) :
    linkedRecords (a ++ b) = linkedRecords a ++ linkedRecords b := by
  simp [linkedRecords, List.filterMap_append]

theorem linkedRecords_pages (pages : List Page) : linkedRecords (pages.map pageFile) = [] := by
  induction pages with
  | nil => rfl
  | cons p ps ih =>
    simp only [List.map_cons, linkedRecords, pageFile, List.filterMap_cons] at ih ⊢
    exact ih

theorem linkedRecords_filesFrom_cons (env : Env) (b : Batch) (rest : List Batch) (k : Nat)
    (prev : BatchID) :
    linkedRecords (filesFrom env (b :: rest) k prev)
      = (LinkPages env k b prev).1.1 :: linkedRecords (filesFrom env rest (k + 3) b.BatchID) := by
  rw [filesFrom, linkedRecords_append]
  rw [show (⟨"data/public/batches/" ++ b.BatchID ++ ".json",
        Json.batch (LinkPages env k b prev).1.1⟩
      :: (LinkPages env k b prev).1.2.map pageFile)
      = [(⟨"data/public/batches/" ++ b.BatchID ++ ".json",
        Json.batch (LinkPages env k b prev).1.1⟩ : FileWrite)]
        ++ (LinkPages env k b prev).1.2.map pageFile from rfl]
  rw [linkedRecords_append, linkedRecords_pages]
  rfl

theorem linkedRecords_filesFrom_ids (env : Env) (bs : List Batch) (k : Nat) (prev : BatchID) :
    (linkedRecords (filesFrom env bs k prev)).map (fun l => (l.ID, l.Head))
      = bs.map (fun b => (b.BatchID, b.IsHead)) := by
  induction bs generalizing k prev with
  | nil => rfl
  | cons b rest ih =>
    rw [linkedRecords_filesFrom_cons, List.map_cons, ih]
    rfl

theorem linkedRecords_filesFrom_first (env : Env) (bs : List Batch) (k : Nat) (prev : BatchID)
    (l : BatchLinked) (h : (linkedRecords (filesFrom env bs k prev))[0]? = some l) :
    l.Next = if prev ≠ "" then some prev else none := by
  cases bs with
  | nil => simp [filesFrom, linkedRecords] at h
  | cons b rest =>
    rw [linkedRecords_filesFrom_cons] at h
    simp only [List.getElem?_cons_zero, Option.some.injEq] at h
    rw [← h]
    rfl

theorem linkedRecords_filesFrom_later (env : Env) (bs : List Batch) (k : Nat) (prev : BatchID)
    (i : Nat) (l : BatchLinked) (b : Batch)
    (h : (linkedRecords (filesFrom env bs k prev))[i + 1]? = some l) (hb : bs[i]? = some b) :
    l.Next = if b.BatchID ≠ "" then some b.BatchID else none := by
  induction bs generalizing k prev i with
  | nil => simp at hb
  | cons b0 rest ih =>
    rw [linkedRecords_filesFrom_cons, List.getElem?_cons_succ] at h
    cases i with
    | zero =>
      simp only [List.getElem?_cons_zero, Option.some.injEq] at hb
      rw [← hb]
      exact linkedRecords_filesFrom_first env rest (k + 3) b0.BatchID l h
    | succ i =>
      rw [List.getElem?_cons_succ] at hb
      exact ih (k + 3) b0.BatchID i h hb

theorem currentRecords_append (a b : List FileWrite) :
    currentRecords (a ++ b) = currentRecords a ++ currentRecords b := by
  simp [currentRecords, List.filterMap_append]

theorem currentRecords_pages (pages : List Page) : currentRecords (pages.map pageFile) = [] := by
  induction pages with
  | nil => rfl
  | cons p ps ih =>
    simp only [List.map_cons, currentRecords, pageFile, List.filterMap_cons] at ih ⊢
    exact ih

theorem currentRecords_filesFrom (env : Env) (bs : List Batch) (k : Nat) (prev : BatchID) :
    currentRecords (filesFrom env bs k prev) = [] := by
  induction bs generalizing k prev with
  | nil => rfl
  | cons b rest ih =>
    rw [filesFrom, currentRecords_append, ih, List.append_nil]
    rw [show (⟨"data/public/batches/" ++ b.BatchID ++ ".json",
        Json.batch (LinkPages env k b prev).1.1⟩
      :: (LinkPages env k b prev).1.2.map pageFile)
      = [(⟨"data/public/batches/" ++ b.BatchID ++ ".json",
        Json.batch (LinkPages env k b prev).1.1⟩ : FileWrite)]
        ++ (LinkPages env k b prev).1.2.map pageFile from rfl]
    rw [currentRecords_append, currentRecords_pages]
    rfl

theorem linkedRecords_ExportPublic (env : Env) (tweets : List TweetID) :
    linkedRecords (ExportPublic env tweets).1
      <+: linkedRecords (filesFrom env (Tweets2Batches env.clock tweets)
          (Tweets2BatchesFrom env.clock 0 tweets).2 "") := by
  have h := (ExportPublic_initial env tweets).filterMap (fun w =>
    match w.content with
    | Json.batch v => some v
    | _ => none)
  rw [List.filterMap_append] at h
  simpa [linkedRecords, currentFile] using h

theorem linkedRecords_ExportPublic_ok (env : Env) (hrm : env.removeAllFails = false)
    (hcr : ∀ p, env.createFails p = false) (tweets : List TweetID) :
    linkedRecords (ExportPublic env tweets).1
      = linkedRecords (filesFrom env (Tweets2Batches env.clock tweets)
          (Tweets2BatchesFrom env.clock 0 tweets).2 "") := by
  rw [ExportPublic_ok env hrm hcr, linkedRecords_append]
  simp [linkedRecords, currentFile]

theorem currentRecords_ExportPublic (env : Env) (tweets : List TweetID) :
    currentRecords (ExportPublic env tweets).1 <+: currentRecords [currentFile env tweets] := by
  have h := (ExportPublic_initial env tweets).filterMap (fun w =>
    match w.content with
    | Json.current v => some v
    | _ => none)
  rw [List.filterMap_append] at h
  have h0 := currentRecords_filesFrom env (Tweets2Batches env.clock tweets)
    (Tweets2BatchesFrom env.clock 0 tweets).2 ""
  unfold currentRecords at h0 ⊢
  rw [h0, List.nil_append] at h
  exact h

/-- The pointer record after the loop over non-head batches only: `Head` is untouched and
`Last` names the last batch seen. -/
theorem foldl_pointerStep_merged (bs : List Batch) (c : CurrentJson)
    (h : ∀ b ∈ bs, b.IsHead = false) :
    (bs.foldl pointerStep c).Head = c.Head
    ∧ (bs.foldl pointerStep c).Last = ((bs.getLast?).map (fun b => b.BatchID)).or c.Last := by
  induction bs generalizing c with
  | nil => simp
  | cons b rest ih =>
    have hb : b.IsHead = false := h b (List.mem_cons_self _ _)
    have hrest : ∀ x ∈ rest, x.IsHead = false := fun x hx => h x (List.mem_cons_of_mem _ hx)
    obtain ⟨h1, h2⟩ := ih (pointerStep c b) hrest
    rw [List.foldl_cons, h1, h2]
    constructor
    · simp [pointerStep, hb]
    · cases rest with
      | nil => simp [pointerStep, hb]
      | cons r rs =>
        rw [List.getLast?_cons_cons]
        cases hl : (r :: rs).getLast? with
        | none => simp at hl
        | some x => simp

/-- The batches of `Tweets2Batches` on a non-empty input: non-head batches, then one head. -/
theorem Tweets2Batches_split (clock : Nat → Time) (tweets : List TweetID) (h : tweets ≠ []) :
    ∃ (init : List Batch) (head : Batch),
      Tweets2Batches clock tweets = init ++ [head]
      ∧ (∀ b ∈ init, b.IsHead = false) ∧ head.IsHead = true
      ∧ init.length = (tweets.length + 19) / 20 - 1 := by
  refine ⟨_, _, Tweets2Batches_eq clock tweets h, zipWith_newMergedBatch_IsHead _ _, rfl, ?_⟩
  simp [createdAtCalls_length, readings_length, splitTweets_length]

/-- The pointer record after the loop of `ExportPublic` over the batches of `Tweets2Batches`. -/
theorem foldl_pointerStep_Tweets2Batches (clock : Nat → Time) (tweets : List TweetID)
    (c : CurrentJson)
    (hc : c = List.foldl pointerStep { Head := none, Last := none, UpdatedAt := 0 }
      (Tweets2Batches clock tweets)) :
    c.Head = (Tweets2Batches clock tweets).getLast?.map (fun b => b.BatchID)
    ∧ (∀ b ∈ Tweets2Batches clock tweets, b.IsHead = true → c.Head = some b.BatchID)
    ∧ (c.Head = none ↔ tweets = [])
    ∧ c.Last = (Tweets2Batches clock tweets).dropLast.getLast?.map (fun b => b.BatchID)
    ∧ (∀ b ∈ (Tweets2Batches clock tweets).dropLast, b.IsHead = false)
    ∧ (c.Last = none ↔ tweets.length ≤ 20) := by
  subst hc
  by_cases h : tweets = []
  · subst h
    rw [Tweets2Batches_nil]
    simp
  · obtain ⟨init, head, hbs, hinit, hhead, hlen⟩ := Tweets2Batches_split clock tweets h
    obtain ⟨h1, h2⟩ := foldl_pointerStep_merged init
      { Head := none, Last := none, UpdatedAt := 0 } hinit
    have hpos : 0 < tweets.length := List.length_pos.mpr h
    rw [hbs, List.foldl_append, List.foldl_cons, List.foldl_nil, List.dropLast_concat,
      List.getLast?_concat]
    simp only [pointerStep, hhead, if_true, h2, Option.map_some', Option.or_none]
    refine ⟨trivial, ?_, ?_, trivial, hinit, ?_⟩
    · intro b hb hb1
      rcases List.mem_append.mp hb with hb | hb
      · rw [hinit b hb] at hb1
        exact absurd hb1 (by decide)
      · rw [List.mem_singleton.mp hb]
    · simp [h]
    · rw [Option.map_eq_none', List.getLast?_eq_none_iff, ← List.length_eq_zero, hlen]
      omega

theorem manifestFirst_append (a b : List FileWrite) (ha : manifestFirst a)
    (hb : manifestFirst b) : manifestFirst (a ++ b) := by
  intro j w p hj hw
  by_cases hlt : j < a.length
  · rw [List.getElem?_append_left hlt] at hj
    obtain ⟨i, m, l, hi, hm, hl, hp⟩ := ha j w p hj hw
    refine ⟨i, m, l, hi, ?_, hl, hp⟩
    rw [List.getElem?_append_left (by omega)]
    exact hm
  · rw [List.getElem?_append_right (by omega)] at hj
    obtain ⟨i, m, l, hi, hm, hl, hp⟩ := hb (j - a.length) w p hj hw
    refine ⟨i + a.length, m, l, by omega, ?_, hl, hp⟩
    rw [List.getElem?_append_right (by omega)]
    simpa using hm

theorem manifestFirst_initial (a b : List FileWrite) (h : a <+: b) (hb : manifestFirst b) :
    manifestFirst a := by
  intro j w p hj hw
  obtain ⟨i, m, l, hi, hm, hl, hp⟩ := hb j w p (prefix_getElem? a b h j w hj) hw
  refine ⟨i, m, l, hi, ?_, hl, hp⟩
  obtain ⟨t, rfl⟩ := h
  have hjl : j < a.length := (List.getElem?_eq_some_iff.mp hj).1
  rw [List.getElem?_append_left (by omega)] at hm
  exact hm

theorem LinkPages_Pages (env : Env) (k : Nat) (b : Batch) (prev : BatchID) :
    (LinkPages env k b prev).1.1.Pages = (LinkPages env k b prev).1.2.map (fun p => p.ID) := by
  simp only [LinkPages]
  exact loMap_eq_map _ _

theorem LinkPages_pages (env : Env) (k : Nat) (b : Batch) (prev : BatchID) :
    (LinkPages env k b prev).1.2 = SplitPages b b.CreatedAt := rfl

theorem manifestFirst_group (path : String) (l : BatchLinked) (pages : List Page)
    (h : l.Pages = pages.map (fun p => p.ID)) :
    manifestFirst (⟨path, Json.batch l⟩ :: pages.map pageFile) := by
  intro j w p hj hw
  cases j with
  | zero =>
    simp only [List.getElem?_cons_zero, Option.some.injEq] at hj
    rw [← hj] at hw
    simp at hw
  | succ j =>
    rw [List.getElem?_cons_succ, List.getElem?_map] at hj
    obtain ⟨q, hq, hqw⟩ := Option.map_eq_some'.mp hj
    rw [← hqw] at hw
    simp only [pageFile, Json.page.injEq] at hw
    refine ⟨0, ⟨path, Json.batch l⟩, l, by omega, by simp, rfl, ?_⟩
    rw [h, ← hw]
    exact List.mem_map.mpr ⟨q, List.getElem?_mem hq, rfl⟩

theorem manifestFirst_filesFrom (env : Env) (bs : List Batch) (k : Nat) (prev : BatchID) :
    manifestFirst (filesFrom env bs k prev) := by
  induction bs generalizing k prev with
  | nil =>
    intro j w p hj
    simp [filesFrom] at hj
  | cons b rest ih =>
    rw [filesFrom]
    exact manifestFirst_append _ _
      (manifestFirst_group _ _ _ (LinkPages_Pages env k b prev)) (ih (k + 3) b.BatchID)

theorem manifestFirst_ExportPublic (env : Env) (tweets : List TweetID) :
    manifestFirst (ExportPublic env tweets).1 := by
  apply manifestFirst_initial _ _ (ExportPublic_initial env tweets)
  apply manifestFirst_append _ _ (manifestFirst_filesFrom env _ _ _)
  intro j w p hj hw
  cases j with
  | zero =>
    simp only [List.getElem?_cons_zero, Option.some.injEq] at hj
    rw [← hj] at hw
    simp [currentFile] at hw
  | succ j => simp at hj

/-! ## Lemmas on the distinctness of page IDs -/

theorem decimalValue_zeros (k : Nat) (cs : List Char) :
    decimalValue (List.replicate k '0' ++ cs) = decimalValue cs := by
  unfold decimalValue
  rw [List.foldl_append]
  congr 1
  induction k with
  | zero => rfl
  | succ k ih =>
    rw [List.replicate_succ, List.foldl_cons]
    exact ih

theorem fmtNat06_injective : Function.Injective fmtNat06 := by
  intro a b h
  have h1 := congrArg (fun x => decimalValue x.data) h
  simp only [fmtNat06, String.data_append, decimalValue_zeros, decimalValue_fmtNat] at h1
  exact h1

theorem fmtInt_no_slash (q : Int) : '/' ∉ (fmtInt q).data := by
  intro h
  cases q with
  | ofNat n =>
    have := fmtNat_isDigit n '/' h
    exact absurd this (by decide)
  | negSucc n =>
    simp only [fmtInt, String.data_append, List.mem_append] at h
    rcases h with h | h
    · exact absurd h (by decide)
    · have := fmtNat_isDigit (n + 1) '/' h
      exact absurd this (by decide)

theorem NewBatchID_no_slash (t : Time) : '/' ∉ (NewBatchID t).data := by
  intro h
  simp only [NewBatchID, String.data_append, List.mem_append] at h
  rcases h with h | h
  · exact fmtInt_no_slash _ h
  · exact absurd h (by decide)

/-- A string is cut in only one way at its first `/`. -/
theorem split_at_slash (a c b d : List Char) (ha : '/' ∉ a) (hc : '/' ∉ c)
    (h : a ++ '/' :: b = c ++ '/' :: d) : a = c ∧ b = d := by
  induction a generalizing c with
  | nil =>
    cases c with
    | nil => simpa using h
    | cons x c' =>
      simp only [List.nil_append, List.cons_append, List.cons.injEq] at h
      exact absurd (by rw [← h.1]; exact List.mem_cons_self _ _) hc
  | cons x a' ih =>
    cases c with
    | nil =>
      simp only [List.nil_append, List.cons_append, List.cons.injEq] at h
      exact absurd (by rw [h.1]; exact List.mem_cons_self _ _) ha
    | cons y c' =>
      simp only [List.cons_append, List.cons.injEq] at h
      obtain ⟨h1, h2⟩ := ih c' (fun hm => ha (List.mem_cons_of_mem _ hm))
        (fun hm => hc (List.mem_cons_of_mem _ hm)) h.2
      exact ⟨by rw [h.1, h1], h2⟩

theorem headID_injective (g1 g2 s1 s2 : String) (h1 : '/' ∉ g1.data) (h2 : '/' ∉ g2.data)
    (h : "head/" ++ g1 ++ "/" ++ s1 = "head/" ++ g2 ++ "/" ++ s2) : g1 = g2 ∧ s1 = s2 := by
  have hd := congrArg String.data h
  simp only [String.data_append, List.append_assoc] at hd
  have hd2 := List.append_cancel_left hd
  have := split_at_slash g1.data g2.data s1.data s2.data h1 h2 hd2
  exact ⟨String.ext this.1, String.ext this.2⟩

theorem mergedID_injective (g1 g2 s1 s2 : String) (h1 : '/' ∉ g1.data) (h2 : '/' ∉ g2.data)
    (h : "merged/" ++ g1 ++ "/" ++ s1 = "merged/" ++ g2 ++ "/" ++ s2) : g1 = g2 ∧ s1 = s2 := by
  have hd := congrArg String.data h
  simp only [String.data_append, List.append_assoc] at hd
  have hd2 := List.append_cancel_left hd
  have := split_at_slash g1.data g2.data s1.data s2.data h1 h2 hd2
  exact ⟨String.ext this.1, String.ext this.2⟩

theorem headID_ne_mergedID (g1 g2 s1 s2 : String) :
    "head/" ++ g1 ++ "/" ++ s1 ≠ "merged/" ++ g2 ++ "/" ++ s2 := by
  intro h
  have hd := congrArg String.data h
  simp only [String.data_append, List.append_assoc] at hd
  have h0 := congrArg List.head? hd
  simp at h0

theorem map_loMapFrom_index {α β γ : Type} (f : α → Nat → β) (g : β → γ) (h : Nat → γ)
    (hf : ∀ x j, g (f x j) = h j) (i : Nat) (l : List α) :
    (loMapFrom f i l).map g = (List.range' i l.length).map h := by
  induction l generalizing i with
  | nil => rfl
  | cons x xs ih =>
    simp only [loMapFrom, List.map_cons, List.length_cons, List.range'_succ, hf, ih]

theorem SplitPages_ids_head (b : Batch) (createdAt : Time) (h : b.IsHead = true) :
    (SplitPages b createdAt).map (fun p => p.ID)
      = b.Tweets.map (fun t => "head/" ++ b.BatchID ++ "/" ++ fmtInt t) := by
  rw [SplitPages_head b createdAt h, List.map_map]
  rfl

theorem SplitPages_ids_merged (b : Batch) (createdAt : Time) (h : b.IsHead = false) :
    (SplitPages b createdAt).map (fun p => p.ID)
      = (List.range' 0 ((b.Tweets.length + 9) / 10)).map
          (fun i => "merged/" ++ b.BatchID ++ "/" ++ fmtNat06 (i + 1)) := by
  rw [← SplitPages_merged_length b createdAt h]
  unfold SplitPages
  rw [if_neg (by simp [h]), loMap_length]
  unfold loMap
  exact map_loMapFrom_index _ (fun p : Page => p.ID)
    (fun i => "merged/" ++ b.BatchID ++ "/" ++ fmtNat06 (i + 1)) (fun _ _ => rfl) 0 _

theorem SplitPages_ids_nodup (b : Batch) (createdAt : Time) (hg : '/' ∉ b.BatchID.data)
    (hn : b.Tweets.Nodup) : ((SplitPages b createdAt).map (fun p => p.ID)).Nodup := by
  cases h : b.IsHead
  · rw [SplitPages_ids_merged b createdAt h]
    apply List.Nodup.map _ (List.nodup_range' 0 _)
    intro i j hij
    have := fmtNat06_injective (mergedID_injective _ _ _ _ hg hg hij).2
    omega
  · rw [SplitPages_ids_head b createdAt h]
    apply List.Nodup.map _ hn
    intro t1 t2 h12
    exact fmtInt_injective (headID_injective _ _ _ _ hg hg h12).2

theorem SplitPages_ids_form (b : Batch) (createdAt : Time) :
    ∀ x ∈ (SplitPages b createdAt).map (fun p => p.ID),
      (∃ s, x = "head/" ++ b.BatchID ++ "/" ++ s) ∨ (∃ s, x = "merged/" ++ b.BatchID ++ "/" ++ s) := by
  intro x hx
  cases h : b.IsHead
  · rw [SplitPages_ids_merged b createdAt h] at hx
    obtain ⟨i, _, rfl⟩ := List.mem_map.mp hx
    exact Or.inr ⟨_, rfl⟩
  · rw [SplitPages_ids_head b createdAt h] at hx
    obtain ⟨t, _, rfl⟩ := List.mem_map.mp hx
    exact Or.inl ⟨_, rfl⟩

theorem SplitPages_ids_disjoint (b1 b2 : Batch) (t1 t2 : Time) (h1 : '/' ∉ b1.BatchID.data)
    (h2 : '/' ∉ b2.BatchID.data) (hne : b1.BatchID ≠ b2.BatchID) :
    List.Disjoint ((SplitPages b1 t1).map (fun p => p.ID))
      ((SplitPages b2 t2).map (fun p => p.ID)) := by
  intro x hx1 hx2
  rcases SplitPages_ids_form b1 t1 x hx1 with ⟨s1, e1⟩ | ⟨s1, e1⟩ <;>
    rcases SplitPages_ids_form b2 t2 x hx2 with ⟨s2, e2⟩ | ⟨s2, e2⟩
  · exact hne (headID_injective _ _ _ _ h1 h2 (e1.symm.trans e2)).1
  · exact headID_ne_mergedID _ _ _ _ (e1.symm.trans e2)
  · exact headID_ne_mergedID _ _ _ _ (e2.symm.trans e1)
  · exact hne (mergedID_injective _ _ _ _ h1 h2 (e1.symm.trans e2)).1

theorem Tweets2Batches_Tweets_nodup (clock : Nat → Time) (tweets : List TweetID)
    (hd : tweets.Nodup) : ∀ b ∈ Tweets2Batches clock tweets, b.Tweets.Nodup := by
  intro b hb
  obtain ⟨i, hi⟩ := List.mem_iff_getElem?.mp hb
  obtain ⟨_, hT, _⟩ := Tweets2Batches_getElem? clock tweets i b hi
  rw [hT, List.nodup_reverse]
  have hs : (SortOld2New tweets).Nodup := (SortOld2New_perm tweets).nodup_iff.mpr hd
  exact (hs.sublist (List.take_sublist _ _)).sublist (List.drop_sublist _ _)

theorem Tweets2Batches_no_slash (clock : Nat → Time) (tweets : List TweetID) :
    ∀ b ∈ Tweets2Batches clock tweets, '/' ∉ b.BatchID.data := by
  intro b hb
  rw [Tweets2Batches_BatchID clock tweets b hb]
  exact NewBatchID_no_slash _

theorem exportPageIDs_nodup (clock : Nat → Time) (tweets : List TweetID) (hd : tweets.Nodup)
    (hr : ∀ b ∈ Tweets2Batches clock tweets, UnixNanoRange b.CreatedAt) :
    (exportPageIDs clock tweets).Nodup := by
  unfold exportPageIDs
  rw [List.nodup_flatMap]
  constructor
  · intro b hb
    exact SplitPages_ids_nodup b b.CreatedAt (Tweets2Batches_no_slash clock tweets b hb)
      (Tweets2Batches_Tweets_nodup clock tweets hd b hb)
  · have h := Tweets2Batches_ids_nodup clock tweets hr
    unfold List.Nodup at h
    rw [List.pairwise_map] at h
    exact h.imp_of_mem (fun ha hb hab =>
      SplitPages_ids_disjoint _ _ _ _ (Tweets2Batches_no_slash clock tweets _ ha)
        (Tweets2Batches_no_slash clock tweets _ hb) hab)

theorem pagePaths_append (a b : List FileWrite) :
    pagePaths (a ++ b) = pagePaths a ++ pagePaths b := by
  simp [pagePaths, List.filterMap_append]

theorem pagePaths_pages (pages : List Page) :
    pagePaths (pages.map pageFile)
      = pages.map (fun p => "data/public/pages/" ++ p.ID ++ ".json") := by
  induction pages with
  | nil => rfl
  | cons p ps ih =>
    simp only [List.map_cons, pagePaths, pageFile, List.filterMap_cons] at ih ⊢
    rw [ih]

theorem pagePaths_filesFrom (env : Env) (bs : List Batch) (k : Nat) (prev : BatchID) :
    pagePaths (filesFrom env bs k prev)
      = (bs.flatMap fun b => (SplitPages b b.CreatedAt).map fun p => p.ID).map
          (fun id => "data/public/pages/" ++ id ++ ".json") := by
  induction bs generalizing k prev with
  | nil => rfl
  | cons b rest ih =>
    rw [filesFrom, pagePaths_append, ih, List.flatMap_cons, List.map_append]
    congr 1
    rw [show (⟨"data/public/batches/" ++ b.BatchID ++ ".json",
        Json.batch (LinkPages env k b prev).1.1⟩
      :: (LinkPages env k b prev).1.2.map pageFile)
      = [(⟨"data/public/batches/" ++ b.BatchID ++ ".json",
        Json.batch (LinkPages env k b prev).1.1⟩ : FileWrite)]
        ++ (LinkPages env k b prev).1.2.map pageFile from rfl]
    rw [pagePaths_append, pagePaths_pages, LinkPages_pages, List.map_map]
    rfl

theorem pagePaths_ExportPublic_nodup (env : Env) (tweets : List TweetID) (hd : tweets.Nodup)
    (hr : ∀ b ∈ Tweets2Batches env.clock tweets, UnixNanoRange b.CreatedAt) :
    (pagePaths (ExportPublic env tweets).1).Nodup := by
  have hsub : List.Sublist (pagePaths (ExportPublic env tweets).1)
      (pagePaths (filesFrom env (Tweets2Batches env.clock tweets)
          (Tweets2BatchesFrom env.clock 0 tweets).2 "" ++ [currentFile env tweets])) :=
    (ExportPublic_initial env tweets).sublist.filterMap _
  apply List.Nodup.sublist hsub
  rw [pagePaths_append, pagePaths_filesFrom]
  have hc : pagePaths [currentFile env tweets] = [] := rfl
  rw [hc, List.append_nil]
  apply List.Nodup.map _ (exportPageIDs_nodup env.clock tweets hd hr)
  intro a b hab
  exact String_append_right_cancel _ _ _ (String_append_left_cancel _ _ _
    (by simpa [String.append_assoc] using hab))

theorem linkedRecords_filesFrom_Pages (env : Env) (bs : List Batch) (k : Nat) (prev : BatchID) :
    (linkedRecords (filesFrom env bs k prev)).map (fun l => l.Pages)
      = bs.map (fun b => (SplitPages b b.CreatedAt).map (fun p => p.ID)) := by
  induction bs generalizing k prev with
  | nil => rfl
  | cons b rest ih =>
    rw [linkedRecords_filesFrom_cons, List.map_cons, ih, LinkPages_Pages, LinkPages_pages]
    rfl

/-! ## Lemmas on the fetch manager -/

theorem getRateLimitLevel_nonneg (rm : RetryManager) (h : 0 ≤ rm.maxRetries) :
    0 ≤ rm.getRateLimitLevel := by
  unfold RetryManager.getRateLimitLevel
  split
  · exact h
  · exact Int.ofNat_nonneg _

theorem Wait_of_nonneg (rm : RetryManager) (w : Option GoError) (h : 0 ≤ rm.maxRetries) :
    rm.Wait w
      = some ({ rm with limiterDivisor := toInt64 (2 ^ rm.getRateLimitLevel.toNat) }, w) := by
  have h0 := getRateLimitLevel_nonneg rm h
  unfold RetryManager.Wait shiftLeftOne
  rw [if_neg (by omega)]

theorem Done_maxRetries (rm : RetryManager) : rm.Done.maxRetries = rm.maxRetries := by
  unfold RetryManager.Done
  split <;> rfl

theorem Fail_maxRetries (rm : RetryManager) : rm.Fail.maxRetries = rm.maxRetries := by
  unfold RetryManager.Fail
  split <;> rfl

theorem Done_limit (rm : RetryManager) : rm.Done.limit = rm.limit := by
  unfold RetryManager.Done
  split <;> rfl

theorem Fail_limit (rm : RetryManager) : rm.Fail.limit = rm.limit := by
  unfold RetryManager.Fail
  split <;> rfl

/-- The attempt that meets the status 429 returns the empty record and the overload error. -/
theorem downloadStatues_429 (u : String → Except String FixTwitterJson) (body : String)
    (tweetID : TweetID) (savedAt : Time) :
    downloadStatues u (HttpResult.response 429 body) tweetID savedAt
      = (emptyStatues tweetID savedAt, some GoError.ErrTooManyRequests) := by
  simp [downloadStatues, fxt, fxtBody, errorsIs, GoError.chainHas, emptyStatues]

/-- The attempt that meets the status 404 returns the empty record and no error. -/
theorem downloadStatues_404 (u : String → Except String FixTwitterJson) (body : String)
    (tweetID : TweetID) (savedAt : Time) :
    downloadStatues u (HttpResult.response 404 body) tweetID savedAt
      = (emptyStatues tweetID savedAt, none) := by
  simp [downloadStatues, fxt, fxtBody, errorsIs, GoError.chainHas, emptyStatues]

/-- The error `fxt` returns: none, a sentinel (the overload one only for the status 429), or
an error that wraps nothing. -/
theorem fxt_snd_cases (u : String → Except String FixTwitterJson) (r : HttpResult) :
    (fxt u r).2 = none ∨ (fxt u r).2 = some GoError.ErrNotFound
    ∨ ((fxt u r).2 = some GoError.ErrTooManyRequests ∧ ∃ body, r = HttpResult.response 429 body)
    ∨ ∃ m, (fxt u r).2 = some (GoError.message m) := by
  cases r with
  | failed msg => exact Or.inr (Or.inr (Or.inr ⟨msg, rfl⟩))
  | response code body =>
    by_cases h200 : code = 200
    · subst h200
      cases hu : u body with
      | ok d => left; simp [fxt, fxtBody, hu]
      | error e => right; right; right; exact ⟨e, by simp [fxt, fxtBody, hu]⟩
    · by_cases h404 : code = 404
      · subst h404
        right; left; simp [fxt, fxtBody]
      · by_cases h429 : code = 429
        · subst h429
          right; right; left
          exact ⟨by simp [fxt, fxtBody], body, rfl⟩
        · right; right; right
          by_cases hp : "error code:".data.isPrefixOf body.data = true
          · exact ⟨"error code: " ++ trimLeading body "error code: ",
              by simp only [fxt, fxtBody, h200, h404, h429, if_false, hp, if_true]⟩
          · exact ⟨"status code: " ++ fmtNat code,
              by simp [fxt, fxtBody, h200, h404, h429, hp]⟩

theorem downloadStatues_snd (u : String → Except String FixTwitterJson) (r : HttpResult)
    (tweetID : TweetID) (savedAt : Time) :
    (downloadStatues u r tweetID savedAt).2
      = match (fxt u r).2 with
        | some e => if errorsIs (some e) GoError.ErrNotFound then none else some e
        | none => none := by
  unfold downloadStatues
  rcases hf : fxt u r with ⟨d, e⟩
  cases e with
  | none => simp only; split <;> rfl
  | some e => simp only; split <;> rfl

/-- Only the status 429 makes `downloadStatues` return the overload error. -/
theorem downloadStatues_overload_iff (u : String → Except String FixTwitterJson)
    (r : HttpResult) (tweetID : TweetID) (savedAt : Time) :
    errorsIs (downloadStatues u r tweetID savedAt).2 GoError.ErrTooManyRequests = true
      ↔ ∃ body, r = HttpResult.response 429 body := by
  constructor
  · intro h
    rw [downloadStatues_snd] at h
    rcases fxt_snd_cases u r with hc | hc | ⟨_, hb⟩ | ⟨m, hc⟩
    · rw [hc] at h; simp [errorsIs] at h
    · rw [hc] at h; simp [errorsIs, GoError.chainHas] at h
    · exact hb
    · rw [hc] at h; simp [errorsIs, GoError.chainHas] at h
  · rintro ⟨body, rfl⟩
    rw [downloadStatues_429]
    rfl

/-- The record `downloadStatues` returns always carries the identifier in decimal and
`complete = true`. -/
theorem downloadStatues_record (u : String → Except String FixTwitterJson) (r : HttpResult)
    (tweetID : TweetID) (savedAt : Time) :
    (downloadStatues u r tweetID savedAt).1.ID = fmtInt tweetID
    ∧ (downloadStatues u r tweetID savedAt).1.Complete = true := by
  unfold downloadStatues
  simp only
  split
  · split <;> exact ⟨rfl, rfl⟩
  · split <;> exact ⟨rfl, rfl⟩

theorem overloadCalls_succ (k : Nat) :
    overloadCalls (k + 1) = [Call.Wait, Call.downloadStatues, Call.Fail] ++ overloadCalls k := by
  simp [overloadCalls, List.replicate_succ]

theorem overloadCalls_length (k : Nat) : (overloadCalls k).length = 3 * k := by
  induction k with
  | zero => rfl
  | succ k ih =>
    rw [overloadCalls_succ, List.length_append, ih]
    simp only [List.length_cons, List.length_nil]
    omega

/-- One iteration of the loop of `Download` whose attempt meets the status 429. -/
theorem downloadLoop_overload_step (u : String → Except String FixTwitterJson) (o : Attempts)
    (tweetID : TweetID) (remaining retries : Nat) (rm : RetryManager) (st : Option Statues)
    (err : Option GoError) (calls : List Call) (hM : 0 ≤ rm.maxRetries)
    (hw : o.limiterWait retries = none) (body : String)
    (hh : o.http retries = HttpResult.response 429 body) :
    downloadLoop u o tweetID (remaining + 1) retries rm st err calls
      = downloadLoop u o tweetID remaining (retries + 1)
          ({ rm with limiterDivisor := toInt64 (2 ^ rm.getRateLimitLevel.toNat) } : RetryManager).Fail
          (some (emptyStatues tweetID (o.now retries))) (some GoError.ErrTooManyRequests)
          (calls ++ [Call.Wait, Call.downloadStatues, Call.Fail]) := by
  rw [downloadLoop, Wait_of_nonneg rm _ hM, hw, hh, downloadStatues_429]
  simp [errorsIs, GoError.chainHas]

/-- One iteration of the loop of `Download` whose attempt meets anything but the status 429. -/
theorem downloadLoop_other_step (u : String → Except String FixTwitterJson) (o : Attempts)
    (tweetID : TweetID) (remaining retries : Nat) (rm : RetryManager) (st : Option Statues)
    (err : Option GoError) (calls : List Call) (hM : 0 ≤ rm.maxRetries)
    (hw : o.limiterWait retries = none)
    (hh : ∀ body, o.http retries ≠ HttpResult.response 429 body) :
    downloadLoop u o tweetID (remaining + 1) retries rm st err calls
      = some ⟨some (downloadStatues u (o.http retries) tweetID (o.now retries)).1, none,
          ({ rm with limiterDivisor := toInt64 (2 ^ rm.getRateLimitLevel.toNat) } : RetryManager).Done,
          calls ++ [Call.Wait, Call.downloadStatues, Call.Done]⟩ := by
  have hno : errorsIs (downloadStatues u (o.http retries) tweetID (o.now retries)).2
      GoError.ErrTooManyRequests = false := by
    cases hc : errorsIs (downloadStatues u (o.http retries) tweetID (o.now retries)).2
      GoError.ErrTooManyRequests with
    | false => rfl
    | true =>
      obtain ⟨body, hb⟩ := (downloadStatues_overload_iff u _ _ _).mp hc
      exact absurd hb (hh body)
  rw [downloadLoop, Wait_of_nonneg rm _ hM, hw]
  simp only
  rcases hd : downloadStatues u (o.http retries) tweetID (o.now retries) with ⟨s1, e1⟩
  rw [hd] at hno
  simp only at hno
  simp [hno]

/-- After `k` iterations that all meet the status 429 the loop of `Download` goes on with
`k` iterations less, having made `k` times the calls `Wait`, `downloadStatues`, `Fail`. -/
theorem downloadLoop_overloads (u : String → Except String FixTwitterJson) (o : Attempts)
    (tweetID : TweetID) (k remaining retries : Nat) (rm : RetryManager) (st : Option Statues)
    (err : Option GoError) (calls : List Call) (hM : 0 ≤ rm.maxRetries)
    (hw : ∀ i, i < k → o.limiterWait (retries + i) = none)
    (hh : ∀ i, i < k → ∃ body, o.http (retries + i) = HttpResult.response 429 body) :
    ∃ (rm' : RetryManager) (st' : Option Statues) (err' : Option GoError),
      downloadLoop u o tweetID (k + remaining) retries rm st err calls
        = downloadLoop u o tweetID remaining (retries + k) rm' st' err' (calls ++ overloadCalls k)
      ∧ rm'.maxRetries = rm.maxRetries ∧ rm'.limit = rm.limit
      ∧ (0 < k → st' = some (emptyStatues tweetID (o.now (retries + k - 1)))
          ∧ err' = some GoError.ErrTooManyRequests)
      ∧ (k = 0 → st' = st ∧ err' = err) := by
  induction k generalizing retries rm st err calls with
  | zero =>
    refine ⟨rm, st, err, ?_, rfl, rfl, fun h => absurd h (lt_irrefl 0), fun _ => ⟨rfl, rfl⟩⟩
    simp [overloadCalls]
  | succ k ih =>
    obtain ⟨body, hb⟩ := hh 0 (by omega)
    have hw0 := hw 0 (by omega)
    simp only [Nat.add_zero] at hb hw0
    have hstep := downloadLoop_overload_step u o tweetID (k + remaining) retries rm st err calls
      hM hw0 body hb
    obtain ⟨rm', st', err', he, hm, hl, hlast, hzero⟩ := ih (retries + 1)
      ({ rm with limiterDivisor := toInt64 (2 ^ rm.getRateLimitLevel.toNat) } : RetryManager).Fail
      (some (emptyStatues tweetID (o.now retries))) (some GoError.ErrTooManyRequests)
      (calls ++ [Call.Wait, Call.downloadStatues, Call.Fail])
      (by rw [Fail_maxRetries]; exact hM)
      (fun i hi => by
        have := hw (i + 1) (by omega)
        rw [show retries + 1 + i = retries + (i + 1) by omega]; exact this)
      (fun i hi => by
        have := hh (i + 1) (by omega)
        rw [show retries + 1 + i = retries + (i + 1) by omega]; exact this)
    refine ⟨rm', st', err', ?_, ?_, ?_, ?_, fun h => absurd h (Nat.succ_ne_zero k)⟩
    · rw [show k + 1 + remaining = k + remaining + 1 by omega, hstep, he, overloadCalls_succ,
        show retries + 1 + k = retries + (k + 1) by omega, List.append_assoc]
    · rw [hm, Fail_maxRetries]
    · rw [hl, Fail_limit]
    · intro _
      by_cases hk : 0 < k
      · have := hlast hk
        rw [show retries + 1 + k - 1 = retries + (k + 1) - 1 by omega] at this
        exact this
      · have hk0 : k = 0 := by omega
        subst hk0
        exact hzero rfl

theorem overloadCalls_count (k : Nat) :
    (overloadCalls k).count Call.downloadStatues = k
    ∧ (overloadCalls k).count Call.Fail = k
    ∧ (overloadCalls k).count Call.Done = 0 := by
  induction k with
  | zero => exact ⟨rfl, rfl, rfl⟩
  | succ k ih =>
    obtain ⟨h1, h2, h3⟩ := ih
    rw [overloadCalls_succ]
    simp only [List.count_append, h1, h2, h3]
    refine ⟨?_, ?_, ?_⟩
    · have : List.count Call.downloadStatues [Call.Wait, Call.downloadStatues, Call.Fail] = 1 := by
        decide
      omega
    · have : List.count Call.Fail [Call.Wait, Call.downloadStatues, Call.Fail] = 1 := by
        decide
      omega
    · have : List.count Call.Done [Call.Wait, Call.downloadStatues, Call.Fail] = 0 := by
        decide
      omega

/-- The loop of `Download` returns (it does not panic) when `maxRetries ≥ 0`, keeps
`maxRetries`, and gives a record of the identifier whenever it gives no error. -/
theorem downloadLoop_total (u : String → Except String FixTwitterJson) (o : Attempts)
    (tweetID : TweetID) (remaining retries : Nat) (rm : RetryManager) (st : Option Statues)
    (err : Option GoError) (calls : List Call) (hM : 0 ≤ rm.maxRetries) :
    ∃ r : DownloadResult,
      downloadLoop u o tweetID remaining retries rm st err calls = some r
      ∧ r.rm.maxRetries = rm.maxRetries
      ∧ (r.err = none → ∃ x, r.statues = some x ∧ x.ID = fmtInt tweetID) := by
  induction remaining generalizing retries rm st err calls with
  | zero =>
    exact ⟨_, rfl, rfl, fun h => by simp at h⟩
  | succ remaining ih =>
    rw [downloadLoop, Wait_of_nonneg rm _ hM]
    cases hwc : o.limiterWait retries with
    | some e => exact ⟨_, rfl, rfl, fun h => by simp at h⟩
    | none =>
      simp only
      rcases hd : downloadStatues u (o.http retries) tweetID (o.now retries) with ⟨s1, e1⟩
      simp only
      cases hc : errorsIs e1 GoError.ErrTooManyRequests with
      | false =>
        simp only [Bool.not_false, if_true]
        refine ⟨_, rfl, ?_, fun _ => ⟨s1, rfl, ?_⟩⟩
        · rw [Done_maxRetries]
        · have := (downloadStatues_record u (o.http retries) tweetID (o.now retries)).1
          rw [hd] at this
          exact this
      | true =>
        simp only [Bool.not_true, Bool.false_eq_true, if_false]
        obtain ⟨r, hr, hm, hs⟩ := ih (retries + 1)
          ({ rm with limiterDivisor := toInt64 (2 ^ rm.getRateLimitLevel.toNat) } :
            RetryManager).Fail (some s1) e1
          (calls ++ [Call.Wait, Call.downloadStatues, Call.Fail])
          (by rw [Fail_maxRetries]; exact hM)
        exact ⟨r, hr, by rw [hm, Fail_maxRetries], hs⟩

/-- What one goroutine of `DownloadStatues` does to the summary: it counts the identifier in
exactly one bucket, and writes a record of it unless it counts it as an error. -/
theorem downloadTask_cases (env : FetchEnv) (j : Nat) (tweetID : TweetID) (s : Summary)
    (hM : 0 ≤ s.rm.maxRetries) :
    ∃ s' : Summary,
      downloadTask env j tweetID s = some s'
      ∧ s'.rm.maxRetries = s.rm.maxRetries
      ∧ s'.downloads.map Prod.fst = s.downloads.map Prod.fst ++ [tweetID]
      ∧ ((s'.successTweets = s.successTweets ∧ s'.notfoundTweets = s.notfoundTweets
            ∧ s'.errorTweets = s.errorTweets ++ [tweetID] ∧ s'.written = s.written)
        ∨ (∃ st : Statues, st.ID = fmtInt tweetID
            ∧ s'.written = s.written ++ [(statuesPath st, st)]
            ∧ s'.errorTweets = s.errorTweets
            ∧ ((s'.successTweets = s.successTweets ++ [tweetID]
                  ∧ s'.notfoundTweets = s.notfoundTweets)
              ∨ (s'.successTweets = s.successTweets
                  ∧ s'.notfoundTweets = s.notfoundTweets ++ [tweetID])))) := by
  obtain ⟨r, hr, hm, hs⟩ := downloadLoop_total env.unmarshal (env.attempts j) tweetID
    s.rm.maxRetries.toNat 0 s.rm none none [] hM
  unfold downloadTask RetryManager.Download
  rw [hr]
  simp only
  cases he : r.err with
  | some e =>
    exact ⟨_, rfl, hm, by simp, Or.inl ⟨rfl, rfl, rfl, rfl⟩⟩
  | none =>
    obtain ⟨x, hx, hid⟩ := hs he
    simp only [hx]
    by_cases hc : env.createFails (statuesPath x) = true
    · rw [if_pos hc]
      exact ⟨_, rfl, hm, by simp, Or.inl ⟨rfl, rfl, rfl, rfl⟩⟩
    · rw [if_neg hc]
      by_cases hsucc : x.Success = true
      · rw [if_pos hsucc]
        exact ⟨_, rfl, hm, by simp, Or.inr ⟨x, hid, rfl, rfl, Or.inl ⟨rfl, rfl⟩⟩⟩
      · rw [if_neg hsucc]
        exact ⟨_, rfl, hm, by simp, Or.inr ⟨x, hid, rfl, rfl, Or.inr ⟨rfl, rfl⟩⟩⟩

theorem SummaryInv_step (env : FetchEnv) (j : Nat) (tweetID : TweetID) (s : Summary)
    (ids : List TweetID) (h : SummaryInv s ids) :
    ∃ s' : Summary, downloadTask env j tweetID s = some s' ∧ SummaryInv s' (ids ++ [tweetID]) := by
  obtain ⟨h1, h2, h3, h4, h5⟩ := h
  obtain ⟨s', hs', hm, hd, hcase⟩ := downloadTask_cases env j tweetID s h5
  refine ⟨s', hs', ?_, ?_, ?_, ?_, ?_⟩
  · rw [hd, h1]
  · intro a
    have := h2 a
    simp only [List.count_append] at this ⊢
    rcases hcase with ⟨e1, e2, e3, _⟩ | ⟨st, _, _, e3, ⟨e1, e2⟩ | ⟨e1, e2⟩⟩ <;>
      rw [e1, e2, e3] <;> simp only [List.count_append] <;> omega
  · intro x
    have := h3 x
    simp only [List.map_append, List.count_append] at this ⊢
    rcases hcase with ⟨e1, e2, _, e4⟩ | ⟨st, hid, e4, _, ⟨e1, e2⟩ | ⟨e1, e2⟩⟩
    · rw [e1, e2, e4]; exact this
    · rw [e1, e2, e4]
      simp only [List.map_append, List.count_append, List.map_cons, List.map_nil, hid]
      omega
    · rw [e1, e2, e4]
      simp only [List.map_append, List.count_append, List.map_cons, List.map_nil, hid]
      omega
  · intro w hw
    rcases hcase with ⟨_, _, _, e4⟩ | ⟨st, _, e4, _, _⟩
    · rw [e4] at hw; exact h4 w hw
    · rw [e4] at hw
      rcases List.mem_append.mp hw with hw | hw
      · exact h4 w hw
      · rw [List.mem_singleton.mp hw]
  · rw [hm]; exact h5

theorem downloadTasks_inv (env : FetchEnv) (l : List TweetID) (j : Nat) (s : Summary)
    (ids : List TweetID) (h : SummaryInv s ids) :
    ∃ s' : Summary, downloadTasks env l j s = some s' ∧ SummaryInv s' (ids ++ l) := by
  induction l generalizing j s ids with
  | nil => exact ⟨s, rfl, by rw [List.append_nil]; exact h⟩
  | cons a rest ih =>
    obtain ⟨s1, hs1, hinv1⟩ := SummaryInv_step env j a s ids h
    obtain ⟨s2, hs2, hinv2⟩ := ih (j + 1) s1 (ids ++ [a]) hinv1
    refine ⟨s2, ?_, ?_⟩
    · rw [downloadTasks, hs1]
      exact hs2
    · rw [List.append_assoc] at hinv2
      exact hinv2

theorem DownloadStatues_inv (env : FetchEnv) (tweets : List TweetID) :
    ∃ s : Summary, DownloadStatues env tweets = some s
      ∧ SummaryInv s (needDownloads env tweets) := by
  have h0 : SummaryInv
      { successTweets := [], notfoundTweets := [], errorTweets := [], written := [],
        downloads := [], rm := NewRetryManager baseLimit 5 } [] :=
    ⟨rfl, fun _ => rfl, fun _ => rfl, fun _ hw => by simp at hw, by decide⟩
  obtain ⟨s, hs, hinv⟩ := downloadTasks_inv env (needDownloads env tweets) 0 _ [] h0
  exact ⟨s, hs, by simpa using hinv⟩

/-- A goroutine whose `Download` reports an error counts the identifier as an error and
writes nothing. -/
theorem downloadTask_of_error (env : FetchEnv) (j : Nat) (tweetID : TweetID) (s : Summary)
    (r : DownloadResult) (hr : s.rm.Download env.unmarshal (env.attempts j) tweetID = some r)
    (he : r.err ≠ none) :
    ∃ s' : Summary, downloadTask env j tweetID s = some s'
      ∧ s'.written = s.written ∧ s'.errorTweets = s.errorTweets ++ [tweetID]
      ∧ s'.successTweets = s.successTweets ∧ s'.notfoundTweets = s.notfoundTweets := by
  unfold downloadTask
  rw [hr]
  simp only
  cases hc : r.err with
  | none => exact absurd hc he
  | some e => exact ⟨_, rfl, rfl, rfl, rfl, rfl⟩

theorem Statues_Success_iff (st : Statues) :
    st.Success = true ↔ ∃ d, st.FxtwitterData = some d ∧ d.Code = 200 ∧ d.Message = "OK" := by
  unfold Statues.Success
  cases h : st.FxtwitterData with
  | none => simp
  | some d => simp [FixTwitterJson.Success]

theorem needDownloads_nil_of_cached (env : FetchEnv) (tweets : List TweetID)
    (h : ∀ id ∈ tweets, ∃ st, env.existStatues id = some st ∧ st.Success = true) :
    needDownloads env tweets = [] := by
  unfold needDownloads
  rw [List.filter_eq_nil_iff]
  intro id hid
  obtain ⟨st, hst, hs⟩ := h id hid
  simp [hst, hs]

/-! ## Lemmas on the pressure level -/

theorem uintOfInt_of_nonneg (i : Int) (h : 0 ≤ i) : uintOfInt i = i.toNat := by
  unfold uintOfInt
  rw [if_pos h]

theorem Fail_level (rm : RetryManager) (h : 0 ≤ rm.maxRetries)
    (hl : rm.rateLimitLevel ≤ rm.maxRetries.toNat) :
    rm.Fail.rateLimitLevel = min (rm.rateLimitLevel + 1) rm.maxRetries.toNat := by
  unfold RetryManager.Fail
  rw [uintOfInt_of_nonneg _ h]
  split
  · simp only; omega
  · omega

theorem Done_level (rm : RetryManager) : rm.Done.rateLimitLevel = rm.rateLimitLevel - 1 := by
  unfold RetryManager.Done
  split
  · rfl
  · omega

theorem iterate_Fail (n : Nat) (rm : RetryManager) (h : 0 ≤ rm.maxRetries)
    (hl : rm.rateLimitLevel ≤ rm.maxRetries.toNat) :
    (Nat.iterate RetryManager.Fail n rm).maxRetries = rm.maxRetries
    ∧ (Nat.iterate RetryManager.Fail n rm).rateLimitLevel
        = min (rm.rateLimitLevel + n) rm.maxRetries.toNat := by
  induction n with
  | zero => exact ⟨rfl, by simp only [Function.iterate_zero, id_eq]; omega⟩
  | succ n ih =>
    obtain ⟨h1, h2⟩ := ih
    rw [Function.iterate_succ_apply']
    refine ⟨by rw [Fail_maxRetries, h1], ?_⟩
    rw [Fail_level _ (by rw [h1]; exact h) (by rw [h1, h2]; omega), h1, h2]
    omega

theorem applyReports_inv (reports : List Report) (rm : RetryManager) (h : 0 ≤ rm.maxRetries)
    (hl : rm.rateLimitLevel ≤ rm.maxRetries.toNat) :
    (applyReports reports rm).maxRetries = rm.maxRetries
    ∧ (applyReports reports rm).limit = rm.limit
    ∧ (applyReports reports rm).rateLimitLevel ≤ rm.maxRetries.toNat := by
  induction reports generalizing rm with
  | nil => exact ⟨rfl, rfl, hl⟩
  | cons r rest ih =>
    cases r with
    | Done =>
      have := ih rm.Done (by rw [Done_maxRetries]; exact h)
        (by rw [Done_maxRetries, Done_level]; omega)
      rw [Done_maxRetries, Done_limit] at this
      exact this
    | Fail =>
      have := ih rm.Fail (by rw [Fail_maxRetries]; exact h)
        (by rw [Fail_maxRetries, Fail_level rm h hl]; omega)
      rw [Fail_maxRetries, Fail_limit] at this
      exact this

theorem getRateLimitLevel_of_le (rm : RetryManager) (h : 0 ≤ rm.maxRetries)
    (hl : rm.rateLimitLevel ≤ rm.maxRetries.toNat) :
    rm.getRateLimitLevel = (rm.rateLimitLevel : Int) := by
  unfold RetryManager.getRateLimitLevel
  rw [if_neg (by omega)]

theorem toInt64_two_pow (k : Nat) (h : k ≤ 62) : toInt64 (2 ^ k) = 2 ^ k := by
  have h1 : (2 : Int) ^ k ≤ 2 ^ 62 := pow_le_pow_right₀ (by norm_num) h
  have h2 : (0 : Int) < 2 ^ k := pow_pos (by norm_num) k
  unfold toInt64
  rw [Int.emod_eq_of_lt (by omega) (by norm_num at h1 ⊢; omega)]
  omega

theorem Wait_of_le (rm : RetryManager) (w : Option GoError) (h : 0 ≤ rm.maxRetries)
    (hl : rm.rateLimitLevel ≤ rm.maxRetries.toNat) :
    rm.Wait w = some ({ rm with limiterDivisor := toInt64 (2 ^ rm.rateLimitLevel) }, w) := by
  rw [Wait_of_nonneg rm w h, getRateLimitLevel_of_le rm h hl]
  rfl

theorem applyReports_replicate_Fail (n : Nat) (rm : RetryManager) :
    applyReports (List.replicate n Report.Fail) rm = Nat.iterate RetryManager.Fail n rm := by
  induction n generalizing rm with
  | zero => rfl
  | succ n ih =>
    rw [List.replicate_succ, Function.iterate_succ_apply]
    exact ih rm.Fail

/-! ## The claims -/

/-- C1: for a list of `n` identifiers `Tweets2Batches` returns exactly `ceil(n/20)` groups,
none for the empty list, and the `IsHead` flags of the returned sequence are `false` for
every group but the last and `true` for the last: when `n ≥ 1` exactly one group is the head
group, and it is the last one. -/
theorem C1_group_count_and_single_head (clock : Nat → Time) (tweets : List TweetID) :
    (Tweets2Batches clock tweets).length = (tweets.length + 19) / 20
    ∧ Tweets2Batches clock [] = []
    ∧ (Tweets2Batches clock tweets).map (fun b => b.IsHead)
        = List.replicate ((tweets.length + 19) / 20 - 1) false
            ++ (if tweets = [] then [] else [true]) :=
  ⟨Tweets2Batches_length clock tweets, Tweets2Batches_nil clock,
    Tweets2Batches_map_IsHead clock tweets⟩

/-- C2: the member lists of the groups returned by `Tweets2Batches` are the consecutive
chunks of 20 of the ascending sort of the input, oldest chunk first, each reversed: group `i`
holds positions `20*i .. min(20*i+20, n)-1` of the sorted input, in descending order. For the
input `1..25` the groups are the non-head `[20,...,1]` followed by the head `[25,...,21]`. -/
theorem C2_groups_are_reversed_chunks (clock : Nat → Time) (tweets : List TweetID) :
    (SortOld2New tweets).Sorted (fun a b => a ≤ b)
    ∧ (SortOld2New tweets).Perm tweets
    ∧ (Tweets2Batches clock tweets).map (fun b => b.Tweets)
        = (List.range ((tweets.length + 19) / 20)).map (fun i =>
            (((SortOld2New tweets).take (min (20 * i + 20) tweets.length)).drop (20 * i)).reverse)
    ∧ (Tweets2Batches clock (idsUpTo 25)).map (fun b => (b.Tweets, b.IsHead))
        = [([20, 19, 18, 17, 16, 15, 14, 13, 12, 11, 10, 9, 8, 7, 6, 5, 4, 3, 2, 1], false),
           ([25, 24, 23, 22, 21], true)] := by
  refine ⟨SortOld2New_sorted tweets, SortOld2New_perm tweets, ?_, ?_⟩
  · rw [Tweets2Batches_map_Tweets, splitTweets_eq_map]
  · exact Tweets2Batches_ids25 clock

/-- C3: every non-head group returned by `Tweets2Batches` holds exactly 20 identifiers and the
head group holds at least 1 and at most 20. -/
theorem C3_group_sizes (clock : Nat → Time) (tweets : List TweetID) (b : Batch)
    (hb : b ∈ Tweets2Batches clock tweets) :
    (b.IsHead = false → b.Tweets.length = 20)
    ∧ (b.IsHead = true → 1 ≤ b.Tweets.length ∧ b.Tweets.length ≤ 20) := by
  obtain ⟨i, hi⟩ := List.mem_iff_getElem?.mp hb
  obtain ⟨hlt, hT, hH⟩ := Tweets2Batches_getElem? clock tweets i b hi
  have hlen := slice_length tweets i
  rw [← hT] at hlen
  constructor
  · intro hf
    rw [hf] at hH
    have hne : ¬ (i + 1 = (tweets.length + 19) / 20) := by
      intro h; simp [h] at hH
    rw [hlen]; omega
  · intro ht
    rw [ht] at hH
    have he : i + 1 = (tweets.length + 19) / 20 := by
      by_contra h; simp [h] at hH
    rw [hlen]; omega

/-- Witness of C3 on the identifiers `1..25` and a clock that stands still. -/
theorem C3_group_sizes_witness :
    (⟨"2-auto", [25, 24, 23, 22, 21], true, 200000⟩ : Batch)
        ∈ Tweets2Batches (fun _ => 0) (idsUpTo 25)
    ∧ (((⟨"2-auto", [25, 24, 23, 22, 21], true, 200000⟩ : Batch).IsHead = false →
          (⟨"2-auto", [25, 24, 23, 22, 21], true, 200000⟩ : Batch).Tweets.length = 20)
      ∧ ((⟨"2-auto", [25, 24, 23, 22, 21], true, 200000⟩ : Batch).IsHead = true →
          1 ≤ (⟨"2-auto", [25, 24, 23, 22, 21], true, 200000⟩ : Batch).Tweets.length
          ∧ (⟨"2-auto", [25, 24, 23, 22, 21], true, 200000⟩ : Batch).Tweets.length ≤ 20)) :=
  ⟨by decide, C3_group_sizes (fun _ => 0) (idsUpTo 25) _ (by decide)⟩

/-- C4, as stated, fails: on the 40 identifiers `1..40` (so `n > 20` and `n mod 20 = 0`) the
head group does not hold `n mod 20 = 0` identifiers; it holds the 20 newest. -/
theorem C4_counterexample :
    ¬ (∀ b ∈ Tweets2Batches (fun _ => 0) (idsUpTo 40), b.IsHead = true →
        b.Tweets.length
          = if (idsUpTo 40).length ≤ 20 then (idsUpTo 40).length else (idsUpTo 40).length % 20) := by
  decide

/-- C4, amended: the head group holds the last `((n-1) mod 20) + 1` identifiers of the ascending
sort, newest first: the last `n mod 20` when 20 does not divide `n`, the last 20 when it does,
and all `n` when `n ≤ 20`. Every identifier of the input outside the head group is smaller
than every member of the head group. -/
theorem C4_head_group_members (clock : Nat → Time) (tweets : List TweetID) (b : Batch)
    (hb : b ∈ Tweets2Batches clock tweets) (hh : b.IsHead = true) :
    b.Tweets
        = ((SortOld2New tweets).drop (tweets.length - ((tweets.length - 1) % 20 + 1))).reverse
    ∧ b.Tweets.length = (tweets.length - 1) % 20 + 1
    ∧ (tweets.length % 20 ≠ 0 → b.Tweets.length = tweets.length % 20)
    ∧ (tweets.length % 20 = 0 → b.Tweets.length = 20)
    ∧ (tweets.length ≤ 20 → b.Tweets = (SortOld2New tweets).reverse)
    ∧ (∀ x ∈ b.Tweets, ∀ y ∈ tweets, y ∉ b.Tweets → y < x) := by
  obtain ⟨i, hi⟩ := List.mem_iff_getElem?.mp hb
  obtain ⟨hlt, hT, hH⟩ := Tweets2Batches_getElem? clock tweets i b hi
  rw [hh] at hH
  have he : i + 1 = (tweets.length + 19) / 20 := by
    by_contra h; simp [h] at hH
  have hmin : min (20 * i + 20) tweets.length = tweets.length := by omega
  have hdrop : 20 * i = tweets.length - ((tweets.length - 1) % 20 + 1) := by omega
  have hslice : b.Tweets
      = ((SortOld2New tweets).drop (tweets.length - ((tweets.length - 1) % 20 + 1))).reverse := by
    rw [hT, hmin, hdrop]
    congr 2
    exact List.take_of_length_le (by rw [SortOld2New_length])
  have hlen : b.Tweets.length = (tweets.length - 1) % 20 + 1 := by
    rw [hslice, List.length_reverse, List.length_drop, SortOld2New_length]
    omega
  refine ⟨hslice, hlen, ?_, ?_, ?_, ?_⟩
  · intro h; rw [hlen]; omega
  · intro h; rw [hlen]; omega
  · intro h
    rw [hslice]
    have : tweets.length - ((tweets.length - 1) % 20 + 1) = 0 := by omega
    rw [this, List.drop_zero]
  · intro x hx y hy hny
    rw [hslice, List.mem_reverse] at hx hny
    have hy1 : y ∈ SortOld2New tweets := (SortOld2New_perm tweets).mem_iff.mpr hy
    have hsorted := SortOld2New_sorted tweets
    rw [← List.take_append_drop (tweets.length - ((tweets.length - 1) % 20 + 1))
      (SortOld2New tweets)] at hy1 hsorted
    have hyt : y ∈ (SortOld2New tweets).take
        (tweets.length - ((tweets.length - 1) % 20 + 1)) := by
      rcases List.mem_append.mp hy1 with h | h
      · exact h
      · exact absurd h hny
    have hle : y ≤ x := (List.pairwise_append.mp hsorted).2.2 y hyt x hx
    have hne : y ≠ x := by
      intro hxy; rw [hxy] at hny; exact hny hx
    exact lt_of_le_of_ne hle hne

/-- Witness of the amended C4 on the identifiers `1..40` and a clock that stands still. -/
theorem C4_head_group_members_witness :
    (⟨"2-auto", [40, 39, 38, 37, 36, 35, 34, 33, 32, 31, 30, 29, 28, 27, 26, 25, 24, 23, 22, 21],
        true, 200000⟩ : Batch) ∈ Tweets2Batches (fun _ => 0) (idsUpTo 40)
    ∧ (⟨"2-auto", [40, 39, 38, 37, 36, 35, 34, 33, 32, 31, 30, 29, 28, 27, 26, 25, 24, 23, 22, 21],
        true, 200000⟩ : Batch).Tweets.length = ((idsUpTo 40).length - 1) % 20 + 1 :=
  ⟨by decide,
    (C4_head_group_members (fun _ => 0) (idsUpTo 40) _ (by decide) rfl).2.1⟩

/-- C5: `SplitPages` returns `ceil(k/10)` pages for a non-head group of `k` members and `k`
pages, each with exactly one entry, for a head group of `k` members. On the groups of the
identifiers `1..25` this is 2 pages for the non-head group and 5 for the head group. -/
theorem C5_page_count (b : Batch) (createdAt : Time) (clock : Nat → Time) :
    (SplitPages b createdAt).length
        = (if b.IsHead then b.Tweets.length else (b.Tweets.length + 9) / 10)
    ∧ (b.IsHead = true → ∀ p ∈ SplitPages b createdAt, p.Statuses.length = 1)
    ∧ (Tweets2Batches clock (idsUpTo 25)).map
          (fun g => (g.IsHead, (SplitPages g g.CreatedAt).length))
        = [(false, 2), (true, 5)] := by
  refine ⟨SplitPages_length b createdAt, ?_, ?_⟩
  · intro h p hp
    rw [SplitPages_head b createdAt h] at hp
    obtain ⟨t, _, rfl⟩ := List.mem_map.mp hp
    rfl
  · have h1 : (fun g : Batch => (g.IsHead, (SplitPages g g.CreatedAt).length))
        = (fun q : List TweetID × Bool => (q.2, if q.2 then q.1.length else (q.1.length + 9) / 10))
          ∘ (fun g : Batch => (g.Tweets, g.IsHead)) := by
      funext g
      simp [SplitPages_length]
    rw [h1, ← List.map_map, Tweets2Batches_ids25 clock]
    decide

/-- C6: for a non-head group with pairwise distinct members, stored in any order, every page
returned by `SplitPages` has at most 10 entries, its entries are the decimal forms of strictly
descending identifiers, and for consecutive pages `i` and `i+1` the last entry of page `i` is
numerically greater than the first entry of page `i+1`. -/
theorem C6_pages_strictly_descending (b : Batch) (createdAt : Time) (hh : b.IsHead = false)
    (hd : b.Tweets.Nodup) :
    (∀ p ∈ SplitPages b createdAt,
        p.Statuses.length ≤ 10
        ∧ ∃ c : List TweetID,
            p.Statuses.map (fun e => e.ID) = c.map fmtInt ∧ c.Pairwise (fun x y => x > y))
    ∧ (∀ (i : Nat) (p q : Page) (x y : TweetID),
        (SplitPages b createdAt)[i]? = some p →
        (SplitPages b createdAt)[i + 1]? = some q →
        (p.Statuses.map (fun e => e.ID)).getLast? = some (fmtInt x) →
        (q.Statuses.map (fun e => e.ID)).head? = some (fmtInt y) →
        x > y) := by
  have hstrict := SortNew2Old_strict b.Tweets hd
  constructor
  · intro p hp
    obtain ⟨i, hi⟩ := List.mem_iff_getElem?.mp hp
    have he := SplitPages_merged_getElem? b createdAt hh i p hi
    constructor
    · have hl := congrArg List.length he
      simp only [List.length_map, List.length_drop, List.length_take, SortNew2Old_length] at hl
      omega
    · exact ⟨_, he, (hstrict.sublist (List.take_sublist _ _)).sublist (List.drop_sublist _ _)⟩
  · intro i p q x y hp hq hx hy
    rw [SplitPages_merged_getElem? b createdAt hh i p hp, List.getLast?_map] at hx
    rw [SplitPages_merged_getElem? b createdAt hh (i + 1) q hq, List.head?_map] at hy
    obtain ⟨x', hx', hfx⟩ := Option.map_eq_some'.mp hx
    obtain ⟨y', hy', hfy⟩ := Option.map_eq_some'.mp hy
    rw [← fmtInt_injective hfx, ← fmtInt_injective hfy]
    exact slice_cross (SortNew2Old b.Tweets) hstrict _ _ _ _
      (Nat.min_le_left _ _) x' y' (List.mem_of_getLast?_eq_some hx') (List.mem_of_mem_head? hy')

/-- Witness of C6 on the non-head group planned for the identifiers `1..25`. -/
theorem C6_pages_strictly_descending_witness :
    (newMergedBatch 100000 ((idsUpTo 20).reverse)).IsHead = false
    ∧ (newMergedBatch 100000 ((idsUpTo 20).reverse)).Tweets.Nodup
    ∧ (∀ p ∈ SplitPages (newMergedBatch 100000 ((idsUpTo 20).reverse)) 100000,
        p.Statuses.length ≤ 10
        ∧ ∃ c : List TweetID,
            p.Statuses.map (fun e => e.ID) = c.map fmtInt ∧ c.Pairwise (fun x y => x > y)) :=
  ⟨rfl, by decide,
    (C6_pages_strictly_descending (newMergedBatch 100000 ((idsUpTo 20).reverse)) 100000 rfl
      (by decide)).1⟩

/-- C7: the `j`-th page (`j = i + 1` for the position `i` counted from 0) of a non-head group
with ID `g` has the ID `merged/g/` followed by `j` zero-padded to six digits; a head group has
one page per member `t`, in the order of the members, with the ID `head/g/` followed by `t` in
decimal and the single entry whose id is `t` in decimal. -/
theorem C7_page_ids (b : Batch) (createdAt : Time) :
    (b.IsHead = false → ∀ (i : Nat) (p : Page), (SplitPages b createdAt)[i]? = some p →
        p.ID = "merged/" ++ b.BatchID ++ "/" ++ fmtNat06 (i + 1))
    ∧ (b.IsHead = true →
        (SplitPages b createdAt).map (fun p => (p.ID, p.Statuses.map (fun e => e.ID)))
          = b.Tweets.map (fun t => ("head/" ++ b.BatchID ++ "/" ++ fmtInt t, [fmtInt t])))
    ∧ (∀ n : Nat, fmtNat06 n = ⟨List.replicate (6 - (fmtNat n).length) '0'⟩ ++ fmtNat n)
    ∧ (∀ n : Nat, decimalValue (fmtNat n).data = n ∧ fmtInt (n : Int) = fmtNat n
        ∧ fmtInt (-((n : Int) + 1)) = "-" ++ fmtNat (n + 1))
    ∧ fmtNat06 1 = "000001" ∧ fmtNat06 12 = "000012" ∧ fmtNat06 1234567 = "1234567"
    ∧ fmtInt 25 = "25" ∧ fmtInt 0 = "0" ∧ fmtInt (-25) = "-25" := by
  refine ⟨?_, ?_, fun _ => rfl, fun n => ⟨decimalValue_fmtNat n, rfl, rfl⟩,
    by decide, by decide, by decide, by decide, by decide, by decide⟩
  · intro h i p hp
    unfold SplitPages at hp
    rw [if_neg (by simp [h]), loMap_getElem?] at hp
    obtain ⟨c, _, hc⟩ := Option.map_eq_some'.mp hp
    rw [← hc]
  · intro h
    rw [SplitPages_head b createdAt h, List.map_map]
    rfl

/-- Witness of C7 on the non-head group planned for the identifiers `1..25`: its second page. -/
theorem C7_page_ids_witness :
    (newMergedBatch 100000 ((idsUpTo 20).reverse)).IsHead = false
    ∧ ∀ (i : Nat) (p : Page),
        (SplitPages (newMergedBatch 100000 ((idsUpTo 20).reverse)) 100000)[i]? = some p →
        p.ID = "merged/" ++ (newMergedBatch 100000 ((idsUpTo 20).reverse)).BatchID ++ "/"
          ++ fmtNat06 (i + 1) :=
  ⟨rfl, (C7_page_ids (newMergedBatch 100000 ((idsUpTo 20).reverse)) 100000).1 rfl⟩

/-- C8, as stated, fails outside the range of `UnixNano`: with a clock standing still just
below the largest `int64` Unix time the second group ID of a run is numerically smaller than
the first, and with a clock standing still at `2^64 - 151616` ns two groups of one run get the
same ID `0-auto`. -/
theorem C8_counterexample :
    (Tweets2Batches lateClock (idsUpTo 21)).map (fun b => b.BatchID)
        = ["92233720368547-auto", "-92233720368547-auto"]
    ∧ ¬ ((Tweets2Batches lateClock (idsUpTo 21)).map
          (fun b => Int.tdiv (unixNano b.CreatedAt) ROUND_CREATED_AT)).Pairwise
            (fun a b => a ≤ b)
    ∧ (Tweets2Batches wrapClock (idsUpTo 21)).map (fun b => b.BatchID) = ["0-auto", "0-auto"]
    ∧ ¬ ((Tweets2Batches wrapClock (idsUpTo 21)).map (fun b => b.BatchID)).Nodup := by
  refine ⟨?_, ?_, ?_, ?_⟩
  · decide
  · decide
  · decide
  · decide

/-- C8, amended: whatever the start time and the clock readings, the values issued by successive
calls of the generator of `createdAtFactory` lie on the 100-microsecond grid and increase
strictly, and the groups of one `Tweets2Batches` run carry exactly these values, in
generation order, each with the ID `NewBatchID` builds from its value; when the values issued
lie in the range of `UnixNano` (`int64` nanoseconds), the group IDs are pairwise distinct
and the numbers they print increase strictly. -/
theorem C8_createdAt_strictly_increasing (start : Time) (rs : List Time) (clock : Nat → Time)
    (tweets : List TweetID) :
    (∀ t ∈ createdAtCalls (createdAtFactory start) rs, t % 100000 = 0)
    ∧ (createdAtCalls (createdAtFactory start) rs).Pairwise (fun a b => a < b)
    ∧ ((∀ t ∈ createdAtCalls (createdAtFactory start) rs, UnixNanoRange t) →
        ((createdAtCalls (createdAtFactory start) rs).map NewBatchID).Nodup
        ∧ ((createdAtCalls (createdAtFactory start) rs).map
            (fun t => Int.tdiv (unixNano t) ROUND_CREATED_AT)).Pairwise (fun a b => a < b))
    ∧ (Tweets2Batches clock tweets).map (fun b => b.CreatedAt)
        = createdAtCalls (createdAtFactory (clock 0))
            (readings clock 1 (Tweets2Batches clock tweets).length)
    ∧ (Tweets2Batches clock tweets).map (fun b => b.BatchID)
        = ((Tweets2Batches clock tweets).map (fun b => b.CreatedAt)).map
            (fun t => fmtInt (Int.tdiv (unixNano t) ROUND_CREATED_AT) ++ "-auto")
    ∧ ((∀ b ∈ Tweets2Batches clock tweets, UnixNanoRange b.CreatedAt) →
        ((Tweets2Batches clock tweets).map (fun b => b.BatchID)).Nodup
        ∧ ((Tweets2Batches clock tweets).map
            (fun b => Int.tdiv (unixNano b.CreatedAt) ROUND_CREATED_AT)).Pairwise
              (fun a b => a < b)) := by
  refine ⟨?_, createdAtCalls_pairwise _ rs, ?_, ?_,
    Tweets2Batches_map_BatchID clock tweets, ?_⟩
  · intro t ht
    exact Int.emod_eq_zero_of_dvd (createdAtCalls_dvd _ rs (createdAtFactory_dvd start) t ht)
  · intro hr
    exact ⟨createdAtCalls_ids_nodup _ rs (createdAtFactory_dvd start) hr,
      createdAtCalls_numbers_pairwise _ rs (createdAtFactory_dvd start) hr⟩
  · rw [Tweets2Batches_map_CreatedAt, Tweets2Batches_length, splitTweets_length]
  · intro hr
    refine ⟨Tweets2Batches_ids_nodup clock tweets hr, ?_⟩
    have h := createdAtCalls_numbers_pairwise (createdAtFactory (clock 0))
      (readings clock 1 (splitTweets tweets).length) (createdAtFactory_dvd _)
      (Tweets2Batches_range clock tweets hr)
    rw [← Tweets2Batches_map_CreatedAt, List.map_map] at h
    exact h

/-- Witness of the amended C8 on the identifiers `1..25`, with a clock that stands still at
the epoch. -/
theorem C8_createdAt_strictly_increasing_witness :
    (∀ b ∈ Tweets2Batches quietEnv.clock (idsUpTo 25), UnixNanoRange b.CreatedAt)
    ∧ ((Tweets2Batches quietEnv.clock (idsUpTo 25)).map (fun b => b.BatchID)).Nodup
    ∧ ((Tweets2Batches quietEnv.clock (idsUpTo 25)).map
        (fun b => Int.tdiv (unixNano b.CreatedAt) ROUND_CREATED_AT)).Pairwise
          (fun a b => a < b) :=
  ⟨by decide,
    (C8_createdAt_strictly_increasing 0 [] quietEnv.clock (idsUpTo 25)).2.2.2.2.2 (by decide)⟩

/-- C9: the Linked Group Records `ExportPublic` writes follow the groups of `Tweets2Batches`
in order (all of them when no file operation fails, an initial part otherwise); the record of
the first (oldest) group has no `next` and the record of every later group has as `next` the
ID of the group immediately before it. For `1..25` the groups are a non-head and a head group,
the non-head record has no `next` and the head record's `next` is the non-head group's ID. -/
theorem C9_next_links (env : Env) (tweets : List TweetID) :
    ((linkedRecords (ExportPublic env tweets).1).map (fun l => (l.ID, l.Head))
        <+: (Tweets2Batches env.clock tweets).map (fun b => (b.BatchID, b.IsHead)))
    ∧ (env.removeAllFails = false → (∀ p, env.createFails p = false) →
        (linkedRecords (ExportPublic env tweets).1).map (fun l => (l.ID, l.Head))
          = (Tweets2Batches env.clock tweets).map (fun b => (b.BatchID, b.IsHead)))
    ∧ (∀ l, (linkedRecords (ExportPublic env tweets).1)[0]? = some l → l.Next = none)
    ∧ (∀ (i : Nat) (l : BatchLinked) (b : Batch),
        (linkedRecords (ExportPublic env tweets).1)[i + 1]? = some l →
        (Tweets2Batches env.clock tweets)[i]? = some b → l.Next = some b.BatchID)
    ∧ (env.removeAllFails = false → (∀ p, env.createFails p = false) →
        ∃ g1 g2 : Batch, Tweets2Batches env.clock (idsUpTo 25) = [g1, g2]
          ∧ g1.IsHead = false ∧ g2.IsHead = true
          ∧ (linkedRecords (ExportPublic env (idsUpTo 25)).1).map
                (fun l => (l.ID, l.Head, l.Next))
              = [(g1.BatchID, false, none), (g2.BatchID, true, some g1.BatchID)]) := by
  refine ⟨?_, ?_, ?_, ?_, ?_⟩
  · have h := (linkedRecords_ExportPublic env tweets).map (fun l => (l.ID, l.Head))
    rw [linkedRecords_filesFrom_ids] at h
    exact h
  · intro hrm hcr
    rw [linkedRecords_ExportPublic_ok env hrm hcr, linkedRecords_filesFrom_ids]
  · intro l hl
    have hl' := prefix_getElem? _ _ (linkedRecords_ExportPublic env tweets) 0 l hl
    have := linkedRecords_filesFrom_first env _ _ _ l hl'
    simpa using this
  · intro i l b hl hb
    have hl' := prefix_getElem? _ _ (linkedRecords_ExportPublic env tweets) (i + 1) l hl
    have h1 := linkedRecords_filesFrom_later env _ _ _ i l b hl' hb
    have h2 := Tweets2Batches_ids_ne_empty env.clock tweets b (List.getElem?_mem hb)
    rw [if_pos h2] at h1
    exact h1
  · intro hrm hcr
    have h25 := Tweets2Batches_ids25 env.clock
    have hne := Tweets2Batches_ids_ne_empty env.clock (idsUpTo 25)
    rw [linkedRecords_ExportPublic_ok env hrm hcr]
    generalize (Tweets2BatchesFrom env.clock 0 (idsUpTo 25)).2 = k
    match hbs : Tweets2Batches env.clock (idsUpTo 25), h25, hne with
    | [g1, g2], h25, hne =>
      simp only [List.map_cons, List.map_nil, List.cons.injEq, Prod.mk.injEq, and_true] at h25
      refine ⟨g1, g2, rfl, h25.1.2, h25.2.2, ?_⟩
      have hg1 : g1.BatchID ≠ "" := hne g1 (by simp)
      rw [linkedRecords_filesFrom_cons, linkedRecords_filesFrom_cons]
      simp [LinkPages, filesFrom, linkedRecords, h25.1.2, h25.2.2, hg1]
    | [], h25, _ => simp at h25
    | [_], h25, _ => simp at h25
    | _ :: _ :: _ :: _, h25, _ => simp at h25

/-- Witness of C9 in an environment where the clock stands still and nothing fails. -/
theorem C9_next_links_witness :
    quietEnv.removeAllFails = false ∧ (∀ p, quietEnv.createFails p = false)
    ∧ (linkedRecords (ExportPublic quietEnv (idsUpTo 25)).1).map (fun l => (l.ID, l.Head))
        = (Tweets2Batches quietEnv.clock (idsUpTo 25)).map (fun b => (b.BatchID, b.IsHead)) :=
  ⟨rfl, fun _ => rfl, (C9_next_links quietEnv (idsUpTo 25)).2.1 rfl (fun _ => rfl)⟩

/-- C10: every Current Pointer Record `ExportPublic` writes has as `head` the ID of the head
group (the last group), absent only for the empty input, and as `last` the ID of the group
just before the head group, the newest non-head group; `last` is absent exactly when
`n ≤ 20`. When no file operation fails there is exactly one such record, in the file written
last. -/
theorem C10_current_pointer (env : Env) (tweets : List TweetID) :
    (∀ c ∈ currentRecords (ExportPublic env tweets).1,
        c.Head = (Tweets2Batches env.clock tweets).getLast?.map (fun b => b.BatchID)
        ∧ (∀ b ∈ Tweets2Batches env.clock tweets, b.IsHead = true → c.Head = some b.BatchID)
        ∧ (c.Head = none ↔ tweets = [])
        ∧ c.Last = (Tweets2Batches env.clock tweets).dropLast.getLast?.map (fun b => b.BatchID)
        ∧ (∀ b ∈ (Tweets2Batches env.clock tweets).dropLast, b.IsHead = false)
        ∧ (c.Last = none ↔ tweets.length ≤ 20))
    ∧ (env.removeAllFails = false → (∀ p, env.createFails p = false) →
        ∃ c : CurrentJson,
          (ExportPublic env tweets).1.getLast?
              = some ⟨"data/public/current.json", Json.current c⟩
          ∧ currentRecords (ExportPublic env tweets).1 = [c]) := by
  constructor
  · intro c hc
    have hc' := (currentRecords_ExportPublic env tweets).subset hc
    simp only [currentRecords, currentFile, List.filterMap_cons, List.filterMap_nil,
      List.mem_singleton] at hc'
    have hp := foldl_pointerStep_Tweets2Batches env.clock tweets _ rfl
    rw [hc']
    exact hp
  · intro hrm hcr
    rw [ExportPublic_ok env hrm hcr]
    refine ⟨_, List.getLast?_concat _, ?_⟩
    rw [currentRecords_append, currentRecords_filesFrom]
    rfl

/-- Witness of C10 in an environment where the clock stands still and nothing fails. -/
theorem C10_current_pointer_witness :
    quietEnv.removeAllFails = false ∧ (∀ p, quietEnv.createFails p = false)
    ∧ ∃ c : CurrentJson,
      (ExportPublic quietEnv (idsUpTo 25)).1.getLast?
          = some ⟨"data/public/current.json", Json.current c⟩
      ∧ currentRecords (ExportPublic quietEnv (idsUpTo 25)).1 = [c] :=
  ⟨rfl, fun _ => rfl, (C10_current_pointer quietEnv (idsUpTo 25)).2 rfl (fun _ => rfl)⟩

/-- C11, as stated, fails: on the identifiers `1..25`, with nothing failing, the first file
`ExportPublic` writes is the Linked Group Record of the non-head group, which lists the page
`merged/1-auto/000001`, and no page file has been written before it. -/
theorem C11_counterexample :
    ¬ (∀ (i : Nat) (m : FileWrite) (l : BatchLinked),
        ((ExportPublic quietEnv (idsUpTo 25)).1)[i]? = some m → m.content = Json.batch l →
        ∀ pid ∈ l.Pages, ∃ (j : Nat) (w : FileWrite) (p : Page),
          j < i ∧ ((ExportPublic quietEnv (idsUpTo 25)).1)[j]? = some w
          ∧ w.content = Json.page p ∧ p.ID = pid) := by
  intro h
  have h0 : ((ExportPublic quietEnv (idsUpTo 25)).1)[0]?
      = some ⟨"data/public/batches/1-auto.json", Json.batch
          { ID := "1-auto", Head := false,
            Pages := ["merged/1-auto/000001", "merged/1-auto/000002"], Next := none,
            CreatedAt := 0, UpdatedAt := 0,
            UpdateNonce := "aaaaaaaaaaaaaaaaaaaaaaaaaaaaaaaa" }⟩ := by
    decide
  obtain ⟨j, _, _, hj, _⟩ := h 0 _ _ h0 rfl "merged/1-auto/000001" (by decide)
  omega

/-- C11, amended: in the sequence of files `ExportPublic` writes, whichever file operations
fail, every page file is written after a Linked Group Record that lists the page: the record
of a group is written before the page files of that group. When nothing fails the files are,
group after group, the record of the group followed by its pages, and then the Current
Pointer Record. -/
theorem C11_manifest_before_pages (env : Env) (tweets : List TweetID) :
    (∀ (j : Nat) (w : FileWrite) (p : Page),
        ((ExportPublic env tweets).1)[j]? = some w → w.content = Json.page p →
        ∃ (i : Nat) (m : FileWrite) (l : BatchLinked),
          i < j ∧ ((ExportPublic env tweets).1)[i]? = some m ∧ m.content = Json.batch l
          ∧ p.ID ∈ l.Pages)
    ∧ (env.removeAllFails = false → (∀ p, env.createFails p = false) →
        (ExportPublic env tweets).1
          = filesFrom env (Tweets2Batches env.clock tweets)
              (Tweets2BatchesFrom env.clock 0 tweets).2 "" ++ [currentFile env tweets])
    ∧ (∀ (b : Batch) (rest : List Batch) (k : Nat) (prev : BatchID),
        filesFrom env (b :: rest) k prev
          = (⟨"data/public/batches/" ++ b.BatchID ++ ".json",
                Json.batch (LinkPages env k b prev).1.1⟩
              :: (SplitPages b b.CreatedAt).map pageFile)
            ++ filesFrom env rest (k + 3) b.BatchID) := by
  refine ⟨manifestFirst_ExportPublic env tweets, ?_, fun _ _ _ _ => rfl⟩
  intro hrm hcr
  rw [ExportPublic_ok env hrm hcr]

/-- Witness of the amended C11 on the identifiers `1..25`: the page file written second. -/
theorem C11_manifest_before_pages_witness :
    ((ExportPublic quietEnv (idsUpTo 25)).1)[1]?
        = some (pageFile ⟨"merged/1-auto/000001",
            (((idsUpTo 20).reverse).take 10).map (fun t => ⟨fmtInt t, 0⟩), 0⟩)
    ∧ ∃ (i : Nat) (m : FileWrite) (l : BatchLinked),
        i < 1 ∧ ((ExportPublic quietEnv (idsUpTo 25)).1)[i]? = some m
        ∧ m.content = Json.batch l ∧ "merged/1-auto/000001" ∈ l.Pages :=
  ⟨by decide,
    (C11_manifest_before_pages quietEnv (idsUpTo 25)).1 1
      (pageFile ⟨"merged/1-auto/000001",
        (((idsUpTo 20).reverse).take 10).map (fun t => ⟨fmtInt t, 0⟩), 0⟩)
      ⟨"merged/1-auto/000001", (((idsUpTo 20).reverse).take 10).map (fun t => ⟨fmtInt t, 0⟩), 0⟩
      (by decide) rfl⟩

/-- C20, as stated, fails outside the range of `UnixNano`: for the distinct identifiers
`1..41` and a clock standing still at `2^64 - 151616` ns the two non-head groups both get the
ID `0-auto`, so both have the pages `merged/0-auto/000001` and `merged/0-auto/000002`, and the
page files of the second overwrite those of the first. -/
theorem C20_counterexample :
    (idsUpTo 41).Nodup
    ∧ (Tweets2Batches wrapEnv.clock (idsUpTo 41)).map (fun b => (b.BatchID, b.IsHead))
        = [("0-auto", false), ("0-auto", false), ("1-auto", true)]
    ∧ ¬ ((Tweets2Batches wrapEnv.clock (idsUpTo 41)).flatMap
          fun b => (SplitPages b b.CreatedAt).map fun p => p.ID).Nodup
    ∧ ¬ (pagePaths (ExportPublic wrapEnv (idsUpTo 41)).1).Nodup := by
  refine ⟨?_, ?_, ?_, ?_⟩
  · decide
  · decide
  · decide
  · decide

/-- C20, amended: for pairwise distinct identifiers and a clock for which the creation times
of the groups lie in the range of `UnixNano` (`int64` nanoseconds), the page IDs of one
export, that is the IDs of the pages `SplitPages` returns for every group of
`Tweets2Batches`, are pairwise distinct across all groups, and the paths of the page files
`ExportPublic` writes are pairwise distinct, so no page file overwrites another; and, for any
clock, every Linked Group Record written lists exactly the IDs of the pages of its group, in
page order. -/
theorem C20_page_ids_distinct (env : Env) (tweets : List TweetID) (hd : tweets.Nodup) :
    ((∀ b ∈ Tweets2Batches env.clock tweets, UnixNanoRange b.CreatedAt) →
      ((Tweets2Batches env.clock tweets).flatMap
          fun b => (SplitPages b b.CreatedAt).map fun p => p.ID).Nodup
      ∧ (pagePaths (ExportPublic env tweets).1).Nodup)
    ∧ (env.removeAllFails = false → (∀ p, env.createFails p = false) →
        pagePaths (ExportPublic env tweets).1
          = ((Tweets2Batches env.clock tweets).flatMap
              fun b => (SplitPages b b.CreatedAt).map fun p => p.ID).map
                (fun id => "data/public/pages/" ++ id ++ ".json"))
    ∧ (∀ (i : Nat) (l : BatchLinked) (b : Batch),
        (linkedRecords (ExportPublic env tweets).1)[i]? = some l →
        (Tweets2Batches env.clock tweets)[i]? = some b →
        l.ID = b.BatchID ∧ l.Pages = (SplitPages b b.CreatedAt).map (fun p => p.ID)) := by
  refine ⟨fun hr => ⟨exportPageIDs_nodup env.clock tweets hd hr,
    pagePaths_ExportPublic_nodup env tweets hd hr⟩, ?_, ?_⟩
  · intro hrm hcr
    rw [ExportPublic_ok env hrm hcr, pagePaths_append, pagePaths_filesFrom]
    exact List.append_nil _
  · intro i l b hl hb
    have hl' := prefix_getElem? _ _ (linkedRecords_ExportPublic env tweets) i l hl
    have h1 := congrArg (fun x => x[i]?) (linkedRecords_filesFrom_ids env
      (Tweets2Batches env.clock tweets) (Tweets2BatchesFrom env.clock 0 tweets).2 "")
    have h2 := congrArg (fun x => x[i]?) (linkedRecords_filesFrom_Pages env
      (Tweets2Batches env.clock tweets) (Tweets2BatchesFrom env.clock 0 tweets).2 "")
    simp only [List.getElem?_map, hl', hb, Option.map_some', Option.some.injEq,
      Prod.mk.injEq] at h1 h2
    exact ⟨h1.1, h2⟩

/-- Witness of the amended C20 on the identifiers `1..25`, with a clock that stands still at
the epoch. -/
theorem C20_page_ids_distinct_witness :
    (idsUpTo 25).Nodup
    ∧ (∀ b ∈ Tweets2Batches quietEnv.clock (idsUpTo 25), UnixNanoRange b.CreatedAt)
    ∧ ((Tweets2Batches quietEnv.clock (idsUpTo 25)).flatMap
        fun b => (SplitPages b b.CreatedAt).map fun p => p.ID).Nodup :=
  ⟨by decide, by decide,
    ((C20_page_ids_distinct quietEnv (idsUpTo 25) (by decide)).1 (by decide)).1⟩

/-- C13: with `maxRetries ≥ 1` and `k < maxRetries`, when the first `k` attempts meet the
overload status 429, attempt `k+1` meets anything else and the limiter's wait never fails,
`Download` returns the record of attempt `k+1` and no error, after `k` times the calls
`Wait`, `downloadStatues`, `Fail` followed by `Wait`, `downloadStatues`, `Done`: `k+1`
attempts, `k` calls of `Fail`, then one call of `Done`. -/
theorem C13_overloads_then_other (rm : RetryManager)
    (u : String → Except String FixTwitterJson) (o : Attempts) (tweetID : TweetID) (k : Nat)
    (hM : 1 ≤ rm.maxRetries) (hk : (k : Int) < rm.maxRetries)
    (hw : ∀ i, i ≤ k → o.limiterWait i = none)
    (hh : ∀ i, i < k → ∃ body, o.http i = HttpResult.response 429 body)
    (hother : ∀ body, o.http k ≠ HttpResult.response 429 body) :
    ∃ r : DownloadResult,
      rm.Download u o tweetID = some r
      ∧ r.statues = some (downloadStatues u (o.http k) tweetID (o.now k)).1
      ∧ r.err = none
      ∧ r.calls = (List.replicate k [Call.Wait, Call.downloadStatues, Call.Fail]).flatten
          ++ [Call.Wait, Call.downloadStatues, Call.Done]
      ∧ r.calls.count Call.downloadStatues = k + 1
      ∧ r.calls.count Call.Fail = k
      ∧ r.calls.count Call.Done = 1 := by
  have hsplit : rm.maxRetries.toNat = k + (rm.maxRetries.toNat - k - 1 + 1) := by omega
  obtain ⟨rm', st', err', he, hm, _, _, _⟩ := downloadLoop_overloads u o tweetID k
    (rm.maxRetries.toNat - k - 1 + 1) 0 rm none none [] (by omega)
    (fun i hi => by rw [Nat.zero_add]; exact hw i (by omega))
    (fun i hi => by rw [Nat.zero_add]; exact hh i hi)
  rw [Nat.zero_add] at he
  have hstep := downloadLoop_other_step u o tweetID (rm.maxRetries.toNat - k - 1) k rm' st' err'
    ([] ++ overloadCalls k) (by omega) (hw k (le_refl k)) hother
  obtain ⟨c1, c2, c3⟩ := overloadCalls_count k
  refine ⟨⟨some (downloadStatues u (o.http k) tweetID (o.now k)).1, none,
    ({ rm' with limiterDivisor := toInt64 (2 ^ rm'.getRateLimitLevel.toNat) } : RetryManager).Done,
    overloadCalls k ++ [Call.Wait, Call.downloadStatues, Call.Done]⟩, ?_, rfl, rfl, rfl,
    ?_, ?_, ?_⟩
  · unfold RetryManager.Download
    rw [hsplit, he, hstep, List.nil_append]
  · simp only [List.count_append, c1]
    rfl
  · simp only [List.count_append, c2]
    rfl
  · simp only [List.count_append, c3]
    rfl

/-- Witness of C13: with `maxRetries = 5`, four responses 429 and then a response 200 with a
successful payload give a successful record after four calls of `Fail` and one of `Done`. -/
theorem C13_overloads_then_other_witness :
    (downloadStatues (fun _ => Except.ok ⟨200, "OK", "{}"⟩) (fourOverloads.http 4) 1
        (fourOverloads.now 4)).1.Success = true
    ∧ ∃ r : DownloadResult,
      (NewRetryManager baseLimit 5).Download (fun _ => Except.ok ⟨200, "OK", "{}"⟩)
          fourOverloads 1 = some r
      ∧ r.statues = some (downloadStatues (fun _ => Except.ok ⟨200, "OK", "{}"⟩)
          (fourOverloads.http 4) 1 (fourOverloads.now 4)).1
      ∧ r.err = none
      ∧ r.calls = (List.replicate 4 [Call.Wait, Call.downloadStatues, Call.Fail]).flatten
          ++ [Call.Wait, Call.downloadStatues, Call.Done]
      ∧ r.calls.count Call.downloadStatues = 4 + 1
      ∧ r.calls.count Call.Fail = 4
      ∧ r.calls.count Call.Done = 1 :=
  ⟨by decide,
    C13_overloads_then_other (NewRetryManager baseLimit 5) (fun _ => Except.ok ⟨200, "OK", "{}"⟩)
      fourOverloads 1 4 (by decide) (by decide) (fun _ _ => rfl)
      (fun i hi => ⟨"", by simp [fourOverloads, hi]⟩)
      (fun body h => by simp [fourOverloads] at h)⟩

/-- C14: with `maxRetries ≥ 1`, when every attempt meets the overload status 429 and the
limiter's wait never fails, `Download` makes exactly `maxRetries` times the calls `Wait`,
`downloadStatues`, `Fail`, never calls `Done`, and returns the error
`retry limit exceeded: ...` wrapping the overload error. -/
theorem C14_retry_limit_exceeded (rm : RetryManager)
    (u : String → Except String FixTwitterJson) (o : Attempts) (tweetID : TweetID)
    (hM : 1 ≤ rm.maxRetries)
    (hw : ∀ i : Nat, (i : Int) < rm.maxRetries → o.limiterWait i = none)
    (hh : ∀ i : Nat, (i : Int) < rm.maxRetries →
      ∃ body, o.http i = HttpResult.response 429 body) :
    ∃ r : DownloadResult,
      rm.Download u o tweetID = some r
      ∧ r.err = some (GoError.wrapped "retry limit exceeded: " GoError.ErrTooManyRequests)
      ∧ errorsIs r.err GoError.ErrTooManyRequests = true
      ∧ r.statues = some (emptyStatues tweetID (o.now (rm.maxRetries.toNat - 1)))
      ∧ r.calls
          = (List.replicate rm.maxRetries.toNat
              [Call.Wait, Call.downloadStatues, Call.Fail]).flatten
      ∧ r.calls.count Call.downloadStatues = rm.maxRetries.toNat
      ∧ r.calls.count Call.Fail = rm.maxRetries.toNat
      ∧ r.calls.count Call.Done = 0 := by
  obtain ⟨rm', st', err', he, _, _, hlast, _⟩ := downloadLoop_overloads u o tweetID
    rm.maxRetries.toNat 0 0 rm none none [] (by omega)
    (fun i hi => by rw [Nat.zero_add]; exact hw i (by omega))
    (fun i hi => by rw [Nat.zero_add]; exact hh i (by omega))
  obtain ⟨hst, herr⟩ := hlast (by omega)
  rw [Nat.zero_add] at he hst
  rw [Nat.add_zero, List.nil_append] at he
  subst hst herr
  obtain ⟨c1, c2, c3⟩ := overloadCalls_count rm.maxRetries.toNat
  refine ⟨⟨some (emptyStatues tweetID (o.now (rm.maxRetries.toNat - 1))),
    some (wrapError "retry limit exceeded: " (some GoError.ErrTooManyRequests)), rm',
    overloadCalls rm.maxRetries.toNat⟩, ?_, rfl, rfl, rfl, rfl, c1, c2, c3⟩
  unfold RetryManager.Download
  rw [he]
  rfl

/-- Witness of C14: the manager `DownloadStatues` creates, every attempt meeting 429. -/
theorem C14_retry_limit_exceeded_witness :
    ∃ r : DownloadResult,
      (NewRetryManager baseLimit 5).Download overloadEnv.unmarshal (overloadEnv.attempts 0) 1
        = some r
      ∧ r.err = some (GoError.wrapped "retry limit exceeded: " GoError.ErrTooManyRequests)
      ∧ r.calls.count Call.downloadStatues = 5 :=
  (C14_retry_limit_exceeded (NewRetryManager baseLimit 5) overloadEnv.unmarshal
      (overloadEnv.attempts 0) 1 (by decide) (fun _ _ => rfl) (fun _ _ => ⟨"", rfl⟩)).imp
    (fun _ h => ⟨h.1, h.2.1, h.2.2.2.2.2.1⟩)

/-- C15: when the attempt meets the status 404, `downloadStatues` returns no error and the
record with the identifier in decimal, `complete = true` and no payload, which is not a
success; with `maxRetries ≥ 1` and a limiter that lets the first attempt through, `Download`
returns this record and no error after the calls `Wait`, `downloadStatues`, `Done`: one
attempt and no retry. -/
theorem C15_not_found (rm : RetryManager) (u : String → Except String FixTwitterJson)
    (o : Attempts) (tweetID : TweetID) (body : String) (hM : 1 ≤ rm.maxRetries)
    (hw : o.limiterWait 0 = none) (h404 : o.http 0 = HttpResult.response 404 body) :
    downloadStatues u (HttpResult.response 404 body) tweetID (o.now 0)
        = ({ ID := fmtInt tweetID, Complete := true, FxtwitterData := none,
             SavedAt := unixUint (o.now 0) }, none)
    ∧ ({ ID := fmtInt tweetID, Complete := true, FxtwitterData := none,
         SavedAt := unixUint (o.now 0) } : Statues).Success = false
    ∧ ∃ r : DownloadResult,
      rm.Download u o tweetID = some r
      ∧ r.statues = some { ID := fmtInt tweetID, Complete := true, FxtwitterData := none,
                           SavedAt := unixUint (o.now 0) }
      ∧ r.err = none
      ∧ r.calls = [Call.Wait, Call.downloadStatues, Call.Done] := by
  refine ⟨downloadStatues_404 u body tweetID (o.now 0), rfl, ?_⟩
  have hstep := downloadLoop_other_step u o tweetID (rm.maxRetries.toNat - 1) 0 rm none none []
    (by omega) hw (fun b hb => by rw [h404] at hb; simp at hb)
  rw [h404, downloadStatues_404] at hstep
  refine ⟨⟨some (emptyStatues tweetID (o.now 0)), none,
    ({ rm with limiterDivisor := toInt64 (2 ^ rm.getRateLimitLevel.toNat) } : RetryManager).Done,
    [Call.Wait, Call.downloadStatues, Call.Done]⟩, ?_, rfl, rfl, rfl⟩
  unfold RetryManager.Download
  rw [show rm.maxRetries.toNat = rm.maxRetries.toNat - 1 + 1 by omega, hstep]
  rfl

/-- Witness of C15: the manager `DownloadStatues` creates, the first attempt meeting 404. -/
theorem C15_not_found_witness :
    ∃ r : DownloadResult,
      (NewRetryManager baseLimit 5).Download (fun _ => Except.ok ⟨200, "OK", "{}"⟩)
          ⟨fun _ => none, fun _ => HttpResult.response 404 "", fun _ => 0⟩ 7 = some r
      ∧ r.statues = some { ID := fmtInt 7, Complete := true, FxtwitterData := none,
                           SavedAt := unixUint 0 }
      ∧ r.err = none
      ∧ r.calls = [Call.Wait, Call.downloadStatues, Call.Done] :=
  (C15_not_found (NewRetryManager baseLimit 5) (fun _ => Except.ok ⟨200, "OK", "{}"⟩)
    ⟨fun _ => none, fun _ => HttpResult.response 404 "", fun _ => 0⟩ 7 "" (by decide) rfl rfl).2.2

/-- C12, evaluated where the code departs from it: one identifier without a cached record whose
only HTTP exchange gets the status 500. The attempt fails with the error `status code: 500`,
yet `Download` returns a record and no error after a single attempt, and `DownloadStatues`
writes the record, complete and without payload, and counts the identifier as not found.
The same holds of every first attempt that meets anything but the status 429: `Download`
makes no retry and returns no error. -/
theorem C12_hard_error_counted_as_not_found :
    (downloadStatues hardErrorEnv.unmarshal (HttpResult.response 500 "oops") 1 0).2
        = some (GoError.message "status code: 500")
    ∧ ((NewRetryManager baseLimit 5).Download hardErrorEnv.unmarshal
          (hardErrorEnv.attempts 0) 1).map (fun r => (r.statues, r.err, r.calls))
        = some (some ⟨"1", true, none, 0⟩, none,
            [Call.Wait, Call.downloadStatues, Call.Done])
    ∧ (DownloadStatues hardErrorEnv [1]).map
          (fun s => (s.successTweets, s.notfoundTweets, s.errorTweets, s.written))
        = some ([], [1], [], [("data/private/statuses/1.json", ⟨"1", true, none, 0⟩)])
    ∧ (∀ (rm : RetryManager) (u : String → Except String FixTwitterJson) (o : Attempts)
        (tweetID : TweetID), 1 ≤ rm.maxRetries → o.limiterWait 0 = none →
        (∀ body, o.http 0 ≠ HttpResult.response 429 body) →
        ∃ r : DownloadResult, rm.Download u o tweetID = some r ∧ r.err = none
          ∧ r.calls = [Call.Wait, Call.downloadStatues, Call.Done]) := by
  refine ⟨?_, ?_, ?_, ?_⟩
  · decide
  · decide
  · decide
  · intro rm u o tweetID hM hw hh
    have hstep := downloadLoop_other_step u o tweetID (rm.maxRetries.toNat - 1) 0 rm none none []
      (by omega) hw hh
    refine ⟨⟨some (downloadStatues u (o.http 0) tweetID (o.now 0)).1, none,
      ({ rm with limiterDivisor := toInt64 (2 ^ rm.getRateLimitLevel.toNat) } :
        RetryManager).Done,
      [Call.Wait, Call.downloadStatues, Call.Done]⟩, ?_, rfl, rfl⟩
    unfold RetryManager.Download
    rw [show rm.maxRetries.toNat = rm.maxRetries.toNat - 1 + 1 by omega, hstep]
    rfl

/-- C16, as stated, fails: for one identifier whose five attempts all meet the overload
status 429, `DownloadStatues` calls `Download` for it and counts it as an error, and no record
of it is written. -/
theorem C16_counterexample :
    ¬ (∀ s : Summary, DownloadStatues overloadEnv [1] = some s →
        ∀ id ∈ s.downloads.map Prod.fst, ∃ w ∈ s.written, w.2.ID = fmtInt id) := by
  intro hcl
  have h : (DownloadStatues overloadEnv [1]).map
      (fun s => (s.downloads.map Prod.fst, s.errorTweets, s.written)) = some ([1], [1], []) := by
    decide
  cases hs : DownloadStatues overloadEnv [1] with
  | none => rw [hs] at h; simp at h
  | some s =>
    rw [hs] at h
    simp only [Option.map_some', Option.some.injEq, Prod.mk.injEq] at h
    obtain ⟨w, hw, _⟩ := hcl s hs 1 (by rw [h.1]; simp)
    rw [h.2.2] at hw
    simp at hw

/-- C16, amended: `DownloadStatues` returns; it calls `Download` once for every identifier to
download and counts each in exactly one bucket; the records written are exactly those of the
identifiers counted as success or not found, each at the path of its identifier; and a
goroutine whose `Download` reports an error counts the identifier as an error and writes
nothing. -/
theorem C16_outcomes_counted (env : FetchEnv) (tweets : List TweetID) :
    ∃ s : Summary,
      DownloadStatues env tweets = some s
      ∧ s.downloads.map Prod.fst = needDownloads env tweets
      ∧ (s.successTweets ++ s.notfoundTweets ++ s.errorTweets).Perm (needDownloads env tweets)
      ∧ (s.written.map (fun w => w.2.ID)).Perm
          ((s.successTweets ++ s.notfoundTweets).map fmtInt)
      ∧ (∀ w ∈ s.written, w.1 = "data/private/statuses/" ++ w.2.ID ++ ".json")
      ∧ (∀ (j : Nat) (tweetID : TweetID) (s0 : Summary) (r : DownloadResult),
          s0.rm.Download env.unmarshal (env.attempts j) tweetID = some r → r.err ≠ none →
          ∃ s1 : Summary, downloadTask env j tweetID s0 = some s1
            ∧ s1.written = s0.written ∧ s1.errorTweets = s0.errorTweets ++ [tweetID]
            ∧ s1.successTweets = s0.successTweets ∧ s1.notfoundTweets = s0.notfoundTweets) := by
  obtain ⟨s, hs, h1, h2, h3, h4, _⟩ := DownloadStatues_inv env tweets
  exact ⟨s, hs, h1, List.perm_iff_count.mpr h2, List.perm_iff_count.mpr h3, h4,
    fun j tweetID s0 r hr he => downloadTask_of_error env j tweetID s0 r hr he⟩

/-- C17: `DownloadStatues` calls `Download` for exactly the input identifiers whose cached
record is absent or not successful, in the order of the input, where a record is successful
exactly when its payload is present with `code = 200` and `message = "OK"`; when every input
identifier has a successful record it makes no call of `Download`, writes nothing and leaves
the three buckets empty. -/
theorem C17_skips_cached_successes (env : FetchEnv) (tweets : List TweetID) :
    ∃ s : Summary,
      DownloadStatues env tweets = some s
      ∧ s.downloads.map Prod.fst
          = tweets.filter (fun tweetID =>
              !(match env.existStatues tweetID with
                | some statues => statues.Success
                | none => false))
      ∧ (∀ st : Statues, st.Success = true
          ↔ ∃ d, st.FxtwitterData = some d ∧ d.Code = 200 ∧ d.Message = "OK")
      ∧ ((∀ id ∈ tweets, ∃ st, env.existStatues id = some st ∧ st.Success = true) →
          s.downloads = [] ∧ s.written = [] ∧ s.successTweets = [] ∧ s.errorTweets = []
          ∧ s.notfoundTweets = []) := by
  obtain ⟨s, hs, h1, _⟩ := DownloadStatues_inv env tweets
  refine ⟨s, hs, h1, Statues_Success_iff, ?_⟩
  intro hall
  have hn := needDownloads_nil_of_cached env tweets hall
  unfold DownloadStatues at hs
  rw [hn] at hs
  simp only [downloadTasks, Option.some.injEq] at hs
  rw [← hs]
  exact ⟨rfl, rfl, rfl, rfl, rfl⟩

/-- Witness of C17: two identifiers, both with a successful cached record. -/
theorem C17_skips_cached_successes_witness :
    (∀ id ∈ ([3, 4] : List TweetID), ∃ st,
        ({ hardErrorEnv with
            existStatues := fun _ => some ⟨"", true, some ⟨200, "OK", "{}"⟩, 0⟩ } :
          FetchEnv).existStatues id = some st ∧ st.Success = true)
    ∧ ∃ s : Summary,
      DownloadStatues { hardErrorEnv with
          existStatues := fun _ => some ⟨"", true, some ⟨200, "OK", "{}"⟩, 0⟩ } [3, 4] = some s
      ∧ s.downloads = [] ∧ s.written = [] ∧ s.successTweets = [] ∧ s.errorTweets = []
      ∧ s.notfoundTweets = [] :=
  ⟨fun _ _ => ⟨_, rfl, rfl⟩,
    (C17_skips_cached_successes { hardErrorEnv with
        existStatues := fun _ => some ⟨"", true, some ⟨200, "OK", "{}"⟩, 0⟩ } [3, 4]).imp
      (fun _ h => ⟨h.1, h.2.2.2 (fun _ _ => ⟨_, rfl, rfl⟩)⟩)⟩

/-- C18: for a manager created by `NewRetryManager` with `maxRetries ≥ 1` the pressure level
starts at 0, is 1 after one `Fail`, is `maxRetries` after `maxRetries` consecutive `Fail`
calls and after any larger number of them, and one `Done` after `n ≥ 1` consecutive `Fail`
calls lowers it by exactly 1. -/
theorem C18_pressure_level (limit : Rat) (maxRetries : Int) (hM : 1 ≤ maxRetries) :
    (NewRetryManager limit maxRetries).rateLimitLevel = 0
    ∧ (NewRetryManager limit maxRetries).Fail.rateLimitLevel = 1
    ∧ ((Nat.iterate RetryManager.Fail maxRetries.toNat
          (NewRetryManager limit maxRetries)).rateLimitLevel : Int) = maxRetries
    ∧ (∀ n : Nat, maxRetries.toNat ≤ n →
        ((Nat.iterate RetryManager.Fail n
            (NewRetryManager limit maxRetries)).rateLimitLevel : Int) = maxRetries)
    ∧ (∀ n : Nat, 1 ≤ n →
        (Nat.iterate RetryManager.Fail n (NewRetryManager limit maxRetries)).Done.rateLimitLevel
            + 1
          = (Nat.iterate RetryManager.Fail n
              (NewRetryManager limit maxRetries)).rateLimitLevel) := by
  have hit : ∀ n : Nat,
      (Nat.iterate RetryManager.Fail n (NewRetryManager limit maxRetries)).rateLimitLevel
        = min n maxRetries.toNat := by
    intro n
    have := (iterate_Fail n (NewRetryManager limit maxRetries)
      (show (0 : Int) ≤ maxRetries by omega) (Nat.zero_le _)).2
    rw [this]
    simp [NewRetryManager]
  refine ⟨rfl, ?_, ?_, ?_, ?_⟩
  · have := hit 1
    simp only [Function.iterate_succ, Function.iterate_zero, Function.comp_apply, id_eq] at this
    rw [this]
    omega
  · rw [hit]; omega
  · intro n hn
    rw [hit]; omega
  · intro n hn
    rw [Done_level, hit]
    omega

/-- Witness of C18: the manager `DownloadStatues` creates, with `maxRetries = 5`. -/
theorem C18_pressure_level_witness :
    (Nat.iterate RetryManager.Fail 7 (NewRetryManager baseLimit 5)).Done.rateLimitLevel + 1
      = (Nat.iterate RetryManager.Fail 7 (NewRetryManager baseLimit 5)).rateLimitLevel :=
  (C18_pressure_level baseLimit 5 (by decide)).2.2.2.2 7 (by decide)

/-- C19, as stated, fails: with `maxRetries = 64`, after 64 calls of `Fail` the level is 64
and the divisor `Wait` applies to the base rate is `1 << 64`, which is 0 on a 64-bit `int`,
not `2^64`. -/
theorem C19_counterexample :
    ¬ (∀ w : Option GoError,
        ((applyReports (List.replicate 64 Report.Fail) (NewRetryManager baseLimit 64)).Wait w).map
            (fun p => p.1.limiterDivisor)
          = some (2 ^ (applyReports (List.replicate 64 Report.Fail)
              (NewRetryManager baseLimit 64)).rateLimitLevel)) := by
  intro h
  have hit := iterate_Fail 64 (NewRetryManager baseLimit 64) (by decide) (by decide)
  have h2 : (applyReports (List.replicate 64 Report.Fail)
      (NewRetryManager baseLimit 64)).rateLimitLevel = 64 := by
    rw [applyReports_replicate_Fail, hit.2]
    decide
  have hm : (applyReports (List.replicate 64 Report.Fail)
      (NewRetryManager baseLimit 64)).maxRetries = 64 := by
    rw [applyReports_replicate_Fail, hit.1]
    rfl
  have h3 := h none
  rw [Wait_of_le _ _ (by rw [hm]; decide) (by rw [hm, h2]; decide), h2] at h3
  simp only [Option.map_some', Option.some.injEq] at h3
  exact absurd h3 (by decide)

/-- C19, amended: for `maxRetries ≥ 0` and any sequence of `Done` and `Fail` calls on a fresh
manager the level stays within `[0, maxRetries]`; `Fail` sets it to `min(level+1, maxRetries)`
and `Done` to `max(level-1, 0)`; neither changes `maxRetries` or the base rate; and the
divisor `Wait` applies to the base rate is `2^level` wrapped to a 64-bit `int`, which is
exactly `2^level` whenever the level is at most 62, as it always is when
`maxRetries ≤ 62`. -/
theorem C19_level_bounds (limit : Rat) (maxRetries : Int) (hM : 0 ≤ maxRetries)
    (reports : List Report) :
    ((applyReports reports (NewRetryManager limit maxRetries)).rateLimitLevel : Int) ≤ maxRetries
    ∧ (applyReports reports (NewRetryManager limit maxRetries)).Fail.rateLimitLevel
        = min ((applyReports reports (NewRetryManager limit maxRetries)).rateLimitLevel + 1)
            maxRetries.toNat
    ∧ ((applyReports reports (NewRetryManager limit maxRetries)).Done.rateLimitLevel : Int)
        = max (((applyReports reports (NewRetryManager limit maxRetries)).rateLimitLevel : Int)
            - 1) 0
    ∧ (applyReports reports (NewRetryManager limit maxRetries)).maxRetries = maxRetries
    ∧ (applyReports reports (NewRetryManager limit maxRetries)).limit = limit
    ∧ (∀ rm : RetryManager, rm.Fail.maxRetries = rm.maxRetries ∧ rm.Fail.limit = rm.limit
        ∧ rm.Done.maxRetries = rm.maxRetries ∧ rm.Done.limit = rm.limit)
    ∧ (∀ w : Option GoError,
        (applyReports reports (NewRetryManager limit maxRetries)).Wait w
          = some ({ applyReports reports (NewRetryManager limit maxRetries) with
              limiterDivisor := toInt64
                (2 ^ (applyReports reports (NewRetryManager limit maxRetries)).rateLimitLevel) },
            w))
    ∧ ((applyReports reports (NewRetryManager limit maxRetries)).rateLimitLevel ≤ 62 →
        ∀ w : Option GoError,
          (applyReports reports (NewRetryManager limit maxRetries)).Wait w
            = some ({ applyReports reports (NewRetryManager limit maxRetries) with
                limiterDivisor :=
                  2 ^ (applyReports reports (NewRetryManager limit maxRetries)).rateLimitLevel },
              w))
    ∧ (maxRetries ≤ 62 →
        (applyReports reports (NewRetryManager limit maxRetries)).rateLimitLevel ≤ 62) := by
  obtain ⟨h1, h2, h3⟩ := applyReports_inv reports (NewRetryManager limit maxRetries)
    hM (Nat.zero_le _)
  have hm : (NewRetryManager limit maxRetries).maxRetries = maxRetries := rfl
  rw [hm] at h1 h3
  have hwait := fun w => Wait_of_le (applyReports reports (NewRetryManager limit maxRetries)) w
    (by rw [h1]; exact hM) (by rw [h1]; exact h3)
  refine ⟨by omega, ?_, ?_, h1, h2,
    fun rm => ⟨Fail_maxRetries rm, Fail_limit rm, Done_maxRetries rm, Done_limit rm⟩,
    hwait, ?_, fun h62 => by omega⟩
  · rw [Fail_level _ (by rw [h1]; exact hM) (by rw [h1]; exact h3), h1]
  · rw [Done_level]
    omega
  · intro hle w
    rw [hwait w, toInt64_two_pow _ hle]

/-- Witness of the amended C19: `maxRetries = 5`, three `Fail` calls and one `Done`. -/
theorem C19_level_bounds_witness :
    (0 : Int) ≤ 5
    ∧ ((applyReports [Report.Fail, Report.Fail, Report.Fail, Report.Done]
          (NewRetryManager baseLimit 5)).rateLimitLevel : Int) ≤ 5 :=
  ⟨by decide,
    (C19_level_bounds baseLimit 5 (by decide)
      [Report.Fail, Report.Fail, Report.Fail, Report.Done]).1⟩

end FavMigration
